import Mathlib

/-!
Verification of the maze generator/solver program (`src/main.rs`).

The Rust source is shallowly embedded as follows:

* `usize` becomes `Nat`.  `Position::translate` uses Nat subtraction, which
  truncates at zero; in the source every call site is guarded (short-circuit
  `||` after a boundary test, or a wall test) so the truncating value is never
  used in a place where Rust would have evaluated an underflowing subtraction,
  except inside `Vector::get_end` where the claims under consideration supply
  the bounds that rule underflow out.
* `Vec<T>` push/pop at the end is modelled by a Lean `List` used head-first
  (push = cons, pop = head/tail) where only stack behaviour and membership
  matter (`explored`, `stack`), and by `++ [x]` / `dropLast` for the solver's
  `path`, whose final order is observable.
* A panic (`unwrap` on `None`, out-of-bounds `ndarray` indexing) is modelled
  by `Option`/`Except` with a `crashed` outcome.
* The random source `rng()` with `choose` is modelled by an oracle
  `Nat → Nat`; iteration `n` picks index `oracle n % length` of the non-empty
  candidate list.  The `while` loops take explicit fuel; running out of fuel
  is the distinct outcome `fuelOut`.
* `ndarray::Array2<Tile>` with shape `size.as_array() = [w, h]` is modelled by
  a total function `Position → Tile` guarded by the bounds check that
  `ndarray`'s `get` performs against the same shape.
-/

namespace MazeGen

/-- `enum Direction` with `EnumIter` (iteration order = declaration order). -/
inductive Direction where
  | north
  | east
  | south
  | west
deriving DecidableEq, Repr

/-- `Direction::iter()` of `strum`: the variants in declaration order. -/
def Direction.iterList : List Direction :=
  [.north, .east, .south, .west]

/-- `Direction::get_opposite`. -/
def Direction.getOpposite : Direction → Direction
  | .north => .south
  | .east => .west
  | .south => .north
  | .west => .east

/-- `Direction::get_perpendiculars` (via `get_axis`: East/West are axis 0,
North/South axis 1; axis 0 yields `[North, South]`, axis 1 `[East, West]`). -/
def Direction.getPerpendiculars : Direction → List Direction
  | .east => [.north, .south]
  | .west => [.north, .south]
  | .north => [.east, .west]
  | .south => [.east, .west]

/-- `struct Position(usize, usize)`; field `x` is `.0`, `y` is `.1`. -/
structure Position where
  x : Nat
  y : Nat
deriving DecidableEq, Repr

/-- `Position::translate`.  Rust's `-= 1` on `usize` would underflow at 0;
Nat subtraction truncates instead.  All guarded call sites agree with Rust. -/
def Position.translate (p : Position) : Direction → Position
  | .north => ⟨p.x, p.y - 1⟩
  | .east => ⟨p.x + 1, p.y⟩
  | .south => ⟨p.x, p.y + 1⟩
  | .west => ⟨p.x - 1, p.y⟩

/-- `struct Size(usize, usize)`: width `.0`, height `.1`. -/
structure Size where
  w : Nat
  h : Nat
deriving DecidableEq, Repr

/-- `Size::get_max_pos`. -/
def Size.getMaxPos (s : Size) : Position :=
  ⟨s.w - 1, s.h - 1⟩

/-- `struct Tile` with its four wall flags (`true` = walled). -/
structure Tile where
  up : Bool
  right : Bool
  down : Bool
  left : Bool
deriving DecidableEq, Repr

/-- `Tile::new`. -/
def Tile.new (walled : Bool) : Tile :=
  ⟨walled, walled, walled, walled⟩

/-- `Tile::set_side`. -/
def Tile.setSide (t : Tile) (direction : Direction) (closed : Bool) : Tile :=
  match direction with
  | .north => { t with up := closed }
  | .east => { t with right := closed }
  | .south => { t with down := closed }
  | .west => { t with left := closed }

/-- `Tile::get_sides` (same list as `get_mut_sides`). -/
def Tile.getSides (t : Tile) : List (Direction × Bool) :=
  [(.north, t.up), (.east, t.right), (.south, t.down), (.west, t.left)]

/-- Reading a single wall flag of a tile; `t.side d` is the flag that
`set_side d` writes.  (Convenience accessor for specifications.) -/
def Tile.side (t : Tile) : Direction → Bool
  | .north => t.up
  | .east => t.right
  | .south => t.down
  | .west => t.left

/-- `struct Maze`: the `Array2<Tile>` of shape `[w, h]` is a total function
together with the bounds recorded in `size`. -/
structure Maze where
  size : Size
  tiles : Position → Tile

/-- `Maze::new`. -/
def Maze.new (size : Size) (walled : Bool) : Maze :=
  ⟨size, fun _ => Tile.new walled⟩

/-- `Maze::get_tile`: `ndarray` `get` against shape `[w, h]`. -/
def Maze.getTile (m : Maze) (pos : Position) : Option Tile :=
  if pos.x < m.size.w ∧ pos.y < m.size.h then some (m.tiles pos) else none

/-- `self.get_mut_tile(pos).unwrap().set_side(direction, closed)`:
`none` is the `unwrap` panic on an out-of-bounds position. -/
def Maze.setSide (m : Maze) (pos : Position) (direction : Direction)
    (closed : Bool) : Option Maze :=
  if pos.x < m.size.w ∧ pos.y < m.size.h then
    some ⟨m.size, fun q =>
      if q = pos then (m.tiles pos).setSide direction closed else m.tiles q⟩
  else none

/-- `Maze::get_valid_directions`.  Note the source's `else if` structure: when
a coordinate is simultaneously `0` and maximal (degenerate 1-wide or 1-tall
mazes) only the first branch fires, so the direction leading out of the grid
is *not* marked invalid. -/
def Maze.getValidDirections (m : Maze) (pos : Position)
    (explored : List Position) : List Direction :=
  let invalidX : List Direction :=
    if pos.x = 0 then [.west]
    else if pos.x = m.size.getMaxPos.x then [.east]
    else []
  let invalid : List Direction :=
    invalidX ++
      (if pos.y = 0 then [.north]
       else if pos.y = m.size.getMaxPos.y then [.south]
       else [])
  Direction.iterList.filter fun d =>
    decide (d ∉ invalid ∧ pos.translate d ∉ explored)

/-- `Maze::get_valid_moves`; `none` is the `get_tile(pos).unwrap()` panic. -/
def Maze.getValidMoves (m : Maze) (pos : Position)
    (explored : List Position) : Option (List Direction) :=
  match m.getTile pos with
  | none => none
  | some t =>
    let invalid : List Direction :=
      ((t.getSides).filter (fun ab => ab.2)).map (fun ab => ab.1)
    some (Direction.iterList.filter fun d =>
      decide (d ∉ invalid ∧ pos.translate d ∉ explored))

/-- Outcomes of the fuelled loops: a Rust panic, or fuel exhaustion. -/
inductive RunErr where
  | crashed
  | fuelOut
deriving DecidableEq, Repr

/-- Loop state of `Maze::generate_maze` (the maze is mutated in place). -/
structure GenState where
  maze : Maze
  explored : List Position
  stack : List Position
  cur : Position

/-- One-iteration outcome for the generator loop. -/
inductive GenStep where
  | next (s : GenState)
  | finished (m : Maze)
  | crashed

/-- One iteration of the `while` loop of `Maze::generate_maze`, including the
loop-condition test `!(explored.len() != 1 && currentpos == Position(0,0))`.
`oracle n % dirs.length` replaces `dirs.choose(&mut rng()).unwrap()`. -/
def genStepF (oracle : Nat → Nat) (n : Nat) (s : GenState) : GenStep :=
  if s.explored.length ≠ 1 ∧ s.cur = ⟨0, 0⟩ then
    .finished s.maze
  else
    match s.maze.getValidDirections s.cur s.explored with
    | [] =>
      match s.stack with
      | [] => .crashed
      | top :: rest => .next ⟨s.maze, s.explored, rest, top⟩
    | d0 :: ds =>
      let dirs := d0 :: ds
      let pick := dirs.getD (oracle n % dirs.length) d0
      match s.maze.setSide s.cur pick false with
      | none => .crashed
      | some m1 =>
        let cur2 := s.cur.translate pick
        match m1.setSide cur2 pick.getOpposite false with
        | none => .crashed
        | some m2 => .next ⟨m2, cur2 :: s.explored, cur2 :: s.stack, cur2⟩

/-- The fuelled generator loop. -/
def genLoop (oracle : Nat → Nat) : Nat → Nat → GenState → Except RunErr Maze
  | 0, _, _ => .error .fuelOut
  | fuel + 1, n, s =>
    match genStepF oracle n s with
    | .finished m => .ok m
    | .crashed => .error .crashed
    | .next s' => genLoop oracle fuel (n + 1) s'

/-- `Maze::generate_maze`. -/
def Maze.generateMaze (m : Maze) (oracle : Nat → Nat) (fuel : Nat) :
    Except RunErr Maze :=
  genLoop oracle fuel 0 ⟨m, [⟨0, 0⟩], [⟨0, 0⟩], ⟨0, 0⟩⟩

/-- `Vec::dedup`: removes consecutive repeated elements.  (When `a = b`,
keeping `b :: rest` instead of `a :: rest` recurses structurally and yields
the same list.) -/
def vecDedup : List Position → List Position
  | [] => []
  | [a] => [a]
  | a :: b :: rest =>
    if a = b then vecDedup (b :: rest) else a :: vecDedup (b :: rest)

/-- Loop state of `Maze::solve_maze`. -/
structure SolveState where
  explored : List Position
  path : List Position
  cur : Position
  popped : Bool

/-- One-iteration outcome for the solver loop. -/
inductive SolveStep where
  | next (s : SolveState)
  | finished (p : List Position)
  | crashed

/-- One iteration of the `while currentpos != goal` loop of
`Maze::solve_maze`, including the final `path.dedup()` at loop exit.
`path.pop().unwrap()` pops at the end of the vector; its panic on the empty
vector is `.crashed`.  `explored.push(currentpos)` runs at the iteration end
with the updated position. -/
def solveStepF (m : Maze) (oracle : Nat → Nat) (n : Nat) (s : SolveState) :
    SolveStep :=
  if s.cur = m.size.getMaxPos then
    .finished (vecDedup s.path)
  else
    match m.getValidMoves s.cur s.explored with
    | none => .crashed
    | some [] =>
      match s.path.getLast? with
      | none => .crashed
      | some last => .next ⟨last :: s.explored, s.path.dropLast, last, true⟩
    | some (d0 :: ds) =>
      let moves := d0 :: ds
      let path1 := if s.popped then s.path ++ [s.cur] else s.path
      let pick := moves.getD (oracle n % moves.length) d0
      let cur2 := s.cur.translate pick
      .next ⟨cur2 :: s.explored, path1 ++ [cur2], cur2, s.popped⟩

/-- The fuelled solver loop. -/
def solveLoop (m : Maze) (oracle : Nat → Nat) :
    Nat → Nat → SolveState → Except RunErr (List Position)
  | 0, _, _ => .error .fuelOut
  | fuel + 1, n, s =>
    match solveStepF m oracle n s with
    | .finished p => .ok p
    | .crashed => .error .crashed
    | .next s' => solveLoop m oracle fuel (n + 1) s'

/-- `Maze::solve_maze` (`Position::new()` is `(0,0)`). -/
def Maze.solveMaze (m : Maze) (oracle : Nat → Nat) (fuel : Nat) :
    Except RunErr (List Position) :=
  solveLoop m oracle fuel 0 ⟨[⟨0, 0⟩], [⟨0, 0⟩], ⟨0, 0⟩, false⟩

/-- `Maze::to_display_pos`: each coordinate mapped through `x * 2 + 1`. -/
def Maze.toDisplayPos (pos : Position) : Position :=
  ⟨pos.x * 2 + 1, pos.y * 2 + 1⟩

/-- `const BLOCK_CHAR`. -/
def blockChar : Char := '█'

/-- `const POINT_CHAR`. -/
def pointChar : Char := '•'

/-- `const EMPTY_CHAR`. -/
def emptyChar : Char := ' '

/-- The error type `io::ErrorKind` restricted to the variant the program
uses. -/
inductive IoErrorKind where
  | invalidInput
deriving DecidableEq, Repr

/-- `struct Vector`. -/
structure Vector where
  origin : Position
  direction : Direction
  magnitude : Nat
deriving DecidableEq, Repr

/-- `Vector::new`. -/
def Vector.new (origin : Position) (direction : Direction) (magnitude : Nat) :
    Vector :=
  ⟨origin, direction, magnitude⟩

/-- The `match unit { ... }` of `Vector::new_from_points`: the direction
determined by the pair of coordinate-delta signums. -/
def signumDirection (unit : Int × Int) : Except IoErrorKind Direction :=
  if unit = ((0 : Int), (-1 : Int)) then .ok .north
  else if unit = ((1 : Int), (0 : Int)) then .ok .east
  else if unit = ((0 : Int), (1 : Int)) then .ok .south
  else if unit = ((-1 : Int), (0 : Int)) then .ok .west
  else .error .invalidInput

/-- `Vector::new_from_points`: component deltas as signed integers, direction
from the pair of signums, magnitude `|dx| + |dy| + 1`. -/
def Vector.newFromPoints (origin pend : Position) :
    Except IoErrorKind Vector :=
  let dx : Int := (pend.x : Int) - (origin.x : Int)
  let dy : Int := (pend.y : Int) - (origin.y : Int)
  match signumDirection (dx.sign, dy.sign) with
  | .error e => .error e
  | .ok d => .ok (Vector.new origin d (dx.natAbs + dy.natAbs + 1))

/-- `Vector::get_end`: origin advanced `magnitude - 1` steps.  Rust would
panic (debug) on `usize` underflow; Nat subtraction truncates, and the claims
using `get_end` restrict to vectors where no underflow happens. -/
def Vector.getEnd (v : Vector) : Position :=
  let magnitude := v.magnitude - 1
  match v.direction with
  | .north => ⟨v.origin.x, v.origin.y - magnitude⟩
  | .east => ⟨v.origin.x + magnitude, v.origin.y⟩
  | .south => ⟨v.origin.x, v.origin.y + magnitude⟩
  | .west => ⟨v.origin.x - magnitude, v.origin.y⟩

/-- `struct Rectangle`. -/
structure Rectangle where
  origin : Position
  size : Size

/-- `Rectangle::new`. -/
def Rectangle.new (origin : Position) (size : Size) : Rectangle :=
  ⟨origin, size⟩

/-- `Rectangle::get_vectors` (`Position::from_size` reads the raw
components). -/
def Rectangle.getVectors (r : Rectangle) : List Vector :=
  let maxPos : Position := ⟨r.size.w, r.size.h⟩
  let right := Vector.new r.origin .east maxPos.x
  let down := Vector.new r.origin .south maxPos.y
  [right, down,
    Vector.new down.getEnd .east maxPos.x,
    Vector.new right.getEnd .south maxPos.y]

/-- `struct Display`: `pixels` is an `Array2<char>` of shape
`size.as_rev_array() = [h, w]`, held row-major (`pixels[y][x]`). -/
structure Display where
  origin : Position
  pixels : List (List Char)
  size : Size
deriving DecidableEq, Repr

/-- `Display::new`. -/
def Display.new (origin : Position) (size : Size) : Display :=
  ⟨origin, List.replicate size.h (List.replicate size.w emptyChar), size⟩

/-- `Display::new_from_maze`. -/
def Display.newFromMaze (origin : Position) (maze : Maze) : Display :=
  Display.new origin ⟨maze.size.w * 2 + 1, maze.size.h * 2 + 1⟩

/-- `for i in lo..=hi { row[i] = symbol }` with `count = hi + 1 - lo` writes:
each write performs the bounds check that `ndarray` indexing performs, and
`none` is its panic. -/
def writeRun : List Char → Nat → Nat → Char → Option (List Char)
  | row, _, 0, _ => some row
  | row, i, count + 1, symbol =>
    if i < row.length then writeRun (row.set i symbol) (i + 1) count symbol
    else none

/-- An inclusive ascending index range write into a row. -/
def writeRange (row : List Char) (lo hi : Nat) (symbol : Char) :
    Option (List Char) :=
  writeRun row lo (hi + 1 - lo) symbol

/-- The column analogue: writes `pixels[i][x] = symbol` for `i` in an
inclusive range, with the row fetch and the in-row index each
bounds-checked. -/
def writeColRun : List (List Char) → Nat → Nat → Nat → Char →
    Option (List (List Char))
  | px, _, _, 0, _ => some px
  | px, x, i, count + 1, symbol =>
    match px.get? i with
    | none => none
    | some row =>
      if x < row.length then
        writeColRun (px.set i (row.set x symbol)) x (i + 1) count symbol
      else none

/-- The inclusive ascending range write into a column. -/
def writeColRange (px : List (List Char)) (x lo hi : Nat) (symbol : Char) :
    Option (List (List Char)) :=
  writeColRun px x lo (hi + 1 - lo) symbol

/-- `Display::draw_line`: on axis 0 it writes into the row `origin.1`, on
axis 1 into the column `origin.0`, each over the inclusive range between
origin and end taken in ascending order (the source branches on
`end > origin` and otherwise swaps the bounds).  `none` models the `ndarray`
bounds panics. -/
def Display.drawLine (dsp : Display) (line : Vector) (symbol : Char) :
    Option Display :=
  match line.direction with
  | .east | .west =>
    match dsp.pixels.get? line.origin.y with
    | none => none
    | some row =>
      let e := line.getEnd
      let lo := if e.x > line.origin.x then line.origin.x else e.x
      let hi := if e.x > line.origin.x then e.x else line.origin.x
      match writeRange row lo hi symbol with
      | none => none
      | some row' =>
        some ⟨dsp.origin, dsp.pixels.set line.origin.y row', dsp.size⟩
  | .north | .south =>
    let e := line.getEnd
    let lo := if e.y > line.origin.y then line.origin.y else e.y
    let hi := if e.y > line.origin.y then e.y else line.origin.y
    match writeColRange dsp.pixels line.origin.x lo hi symbol with
    | none => none
    | some px' => some ⟨dsp.origin, px', dsp.size⟩

/-- `Display::draw_rect`: the four edge vectors drawn in order. -/
def Display.drawRect (dsp : Display) (rectangle : Rectangle) (symbol : Char) :
    Option Display :=
  rectangle.getVectors.foldlM (fun d v => d.drawLine v symbol) dsp

/-- The index sequence of `maze.tiles.indexed_iter()`: row-major over shape
`[w, h]`, so `x` is the outer index. -/
def tileIndexList (s : Size) : List Position :=
  (List.range s.w).flatMap fun x => (List.range s.h).map fun y => ⟨x, y⟩

/-- The body of the per-tile loop in `Display::draw_maze`: for every walled
side, a length-3 wall segment drawn perpendicular across the side's
midpoint. -/
def Display.drawTileWalls (dsp : Display) (maze : Maze) (pos : Position) :
    Option Display :=
  let displayPos := Maze.toDisplayPos pos
  (maze.tiles pos).getSides.foldlM
    (fun d (side : Direction × Bool) =>
      if side.2 then
        let perpendicular := side.1.getPerpendiculars.getD 0 .north
        d.drawLine
          (Vector.new ((displayPos.translate side.1).translate perpendicular)
            perpendicular.getOpposite 3)
          blockChar
      else some d)
    dsp

/-- `Display::draw_maze`: size check first (`Err(InvalidInput)` leaves the
buffer untouched), then the bounding rectangle and every tile's walls.  The
overall `Option` carries the possibility of an `ndarray` panic while
drawing. -/
def Display.drawMaze (dsp : Display) (maze : Maze) :
    Option (Display × Except IoErrorKind Unit) :=
  let reqMazeSize := (Display.newFromMaze dsp.origin maze).size
  if dsp.size = reqMazeSize then
    match dsp.drawRect (Rectangle.new ⟨0, 0⟩ dsp.size) blockChar with
    | none => none
    | some d1 =>
      match (tileIndexList maze.size).foldlM
          (fun d p => Display.drawTileWalls d maze p) d1 with
      | none => none
      | some d2 => some (d2, .ok ())
  else some (dsp, .error .invalidInput)

/-- `Display::draw_path` over `path.adjacent_pairs()`: each consecutive pair
becomes a vector via `new_from_points` (`?` returns the error with the buffer
as mutated so far) and is drawn; `none` is a draw-line panic. -/
def drawPathAux (dsp : Display) : List Position → Char →
    Option (Display × Except IoErrorKind Unit)
  | a :: b :: rest, symbol =>
    match Vector.newFromPoints a b with
    | .error e => some (dsp, .error e)
    | .ok v =>
      match dsp.drawLine v symbol with
      | none => none
      | some d' => drawPathAux d' (b :: rest) symbol
  | _, _ => some (dsp, .ok ())

/-- `Display::draw_path`. -/
def Display.drawPath (dsp : Display) (path : List Position) (symbol : Char) :
    Option (Display × Except IoErrorKind Unit) :=
  drawPathAux dsp path symbol

/-! Specification-side vocabulary used to state the claims. -/

/-- Two positions are aligned on a single axis: they differ in exactly one
coordinate (a non-zero delta along exactly one axis). -/
def singleAxisAligned (a b : Position) : Prop :=
  (a.x = b.x ∧ a.y ≠ b.y) ∨ (a.x ≠ b.x ∧ a.y = b.y)

instance (a b : Position) : Decidable (singleAxisAligned a b) := by
  unfold singleAxisAligned; infer_instance

/-- Manhattan distance between two positions. -/
def manhattanDist (a b : Position) : Nat :=
  ((a.x - b.x) + (b.x - a.x)) + ((a.y - b.y) + (b.y - a.y))

/-- The direction inferred from the sign of the coordinate delta from `a` to
`b`, when the displacement lies along exactly one axis. -/
def deltaDirection (a b : Position) : Option Direction :=
  if a.x = b.x ∧ b.y < a.y then some .north
  else if a.y = b.y ∧ a.x < b.x then some .east
  else if a.x = b.x ∧ a.y < b.y then some .south
  else if a.y = b.y ∧ b.x < a.x then some .west
  else none

/-- The reversal of a vector: origin at the other end, opposite direction,
same magnitude. -/
def Vector.reversal (v : Vector) : Vector :=
  Vector.new v.getEnd v.direction.getOpposite v.magnitude

/-- A display whose pixel buffer really is the `h × w` rectangle recorded in
its size (every display built by `Display::new` satisfies this). -/
def Display.wf (dsp : Display) : Prop :=
  dsp.pixels.length = dsp.size.h ∧ ∀ row ∈ dsp.pixels, row.length = dsp.size.w

/-- An axis-aligned vector that stays inside the canvas: positive magnitude,
no coordinate underflow, and both endpoints within the buffer. -/
def Vector.inBounds (v : Vector) (dsp : Display) : Prop :=
  1 ≤ v.magnitude ∧
  match v.direction with
  | .east =>
    v.origin.x + (v.magnitude - 1) < dsp.size.w ∧ v.origin.y < dsp.size.h
  | .west =>
    v.magnitude - 1 ≤ v.origin.x ∧ v.origin.x < dsp.size.w ∧
      v.origin.y < dsp.size.h
  | .south =>
    v.origin.y + (v.magnitude - 1) < dsp.size.h ∧ v.origin.x < dsp.size.w
  | .north =>
    v.magnitude - 1 ≤ v.origin.y ∧ v.origin.y < dsp.size.h ∧
      v.origin.x < dsp.size.w

/-- The buffer cell `(x, y)` lies on the inclusive span of the vector. -/
def Vector.onSpan (v : Vector) (x y : Nat) : Prop :=
  match v.direction with
  | .east =>
    y = v.origin.y ∧ v.origin.x ≤ x ∧ x ≤ v.origin.x + (v.magnitude - 1)
  | .west =>
    y = v.origin.y ∧ v.origin.x - (v.magnitude - 1) ≤ x ∧ x ≤ v.origin.x
  | .south =>
    x = v.origin.x ∧ v.origin.y ≤ y ∧ y ≤ v.origin.y + (v.magnitude - 1)
  | .north =>
    x = v.origin.x ∧ v.origin.y - (v.magnitude - 1) ≤ y ∧ y ≤ v.origin.y

/-- Reading a single buffer cell, column `x` of row `y`. -/
def Display.pixel (dsp : Display) (x y : Nat) : Option Char :=
  (dsp.pixels.get? y).bind fun row => row.get? x

/-- The wall between two cells is open on both sides: the direction inferred
from the coordinate delta exists, and the corresponding wall flag is open
(`false`) on the first cell's tile and on the opposite side of the second
cell's tile. -/
def openBetweenB (m : Maze) (a b : Position) : Bool :=
  match deltaDirection a b with
  | none => false
  | some d =>
    match m.getTile a, m.getTile b with
    | some ta, some tb => !(ta.side d) && !(tb.side d.getOpposite)
    | _, _ => false

/-! ## Generator behaviour on degenerate (1-wide / 1-tall) mazes

On a maze whose width or height is 1, the `else if` in
`get_valid_directions` skips the max-coordinate test whenever the coordinate
is 0, so the direction pointing out of the grid stays "valid"; picking it
makes `get_mut_tile(...).unwrap()` panic.  The lemmas below trace the first
one or two loop iterations for the three smallest such mazes. -/

theorem validDirections_one_one_start :
    (Maze.new ⟨1, 1⟩ true).getValidDirections ⟨0, 0⟩ [⟨0, 0⟩]
      = [.east, .south] := by
  decide

theorem genStep_one_one_crashes (oracle : Nat → Nat) :
    genStepF oracle 0 ⟨Maze.new ⟨1, 1⟩ true, [⟨0, 0⟩], [⟨0, 0⟩], ⟨0, 0⟩⟩
      = .crashed := by
  rcases Nat.mod_two_eq_zero_or_one (oracle 0) with hk | hk <;>
  · simp only [genStepF, validDirections_one_one_start, List.length_cons,
      List.length_nil]
    simp [hk, Maze.setSide, Position.translate, List.getD, Maze.new]

theorem validDirections_two_one_start :
    (Maze.new ⟨2, 1⟩ true).getValidDirections ⟨0, 0⟩ [⟨0, 0⟩]
      = [.east, .south] := by
  decide

theorem validDirections_two_one_second (m : Maze) (h : m.size = ⟨2, 1⟩) :
    m.getValidDirections ⟨1, 0⟩ [⟨1, 0⟩, ⟨0, 0⟩] = [.south] := by
  simp only [Maze.getValidDirections, h]
  decide

theorem genStep_two_one_south_crashes (oracle : Nat → Nat)
    (hk : oracle 0 % 2 = 1) :
    genStepF oracle 0 ⟨Maze.new ⟨2, 1⟩ true, [⟨0, 0⟩], [⟨0, 0⟩], ⟨0, 0⟩⟩
      = .crashed := by
  simp only [genStepF, validDirections_two_one_start, List.length_cons,
    List.length_nil]
  simp [hk, Maze.setSide, Position.translate, List.getD, Maze.new]

theorem genStep_two_one_east (oracle : Nat → Nat) (hk : oracle 0 % 2 = 0) :
    ∃ mz : Maze,
      genStepF oracle 0 ⟨Maze.new ⟨2, 1⟩ true, [⟨0, 0⟩], [⟨0, 0⟩], ⟨0, 0⟩⟩
        = .next ⟨mz, [⟨1, 0⟩, ⟨0, 0⟩], [⟨1, 0⟩, ⟨0, 0⟩], ⟨1, 0⟩⟩ ∧
      mz.size = ⟨2, 1⟩ := by
  simp only [genStepF, validDirections_two_one_start, List.length_cons,
    List.length_nil]
  simp only [hk, Maze.setSide, Position.translate, List.getD, Maze.new]
  exact ⟨_, rfl, rfl⟩

theorem genStep_two_one_second_crashes (oracle : Nat → Nat) (n : Nat)
    (mz : Maze) (h : mz.size = ⟨2, 1⟩) :
    genStepF oracle n ⟨mz, [⟨1, 0⟩, ⟨0, 0⟩], [⟨1, 0⟩, ⟨0, 0⟩], ⟨1, 0⟩⟩
      = .crashed := by
  simp only [genStepF, validDirections_two_one_second mz h, List.length_cons,
    List.length_nil, Nat.mod_one]
  simp [Maze.setSide, h, Position.translate, List.getD]

theorem validDirections_one_two_start :
    (Maze.new ⟨1, 2⟩ true).getValidDirections ⟨0, 0⟩ [⟨0, 0⟩]
      = [.east, .south] := by
  decide

theorem validDirections_one_two_second (m : Maze) (h : m.size = ⟨1, 2⟩) :
    m.getValidDirections ⟨0, 1⟩ [⟨0, 1⟩, ⟨0, 0⟩] = [.east] := by
  simp only [Maze.getValidDirections, h]
  decide

theorem genStep_one_two_east_crashes (oracle : Nat → Nat)
    (hk : oracle 0 % 2 = 0) :
    genStepF oracle 0 ⟨Maze.new ⟨1, 2⟩ true, [⟨0, 0⟩], [⟨0, 0⟩], ⟨0, 0⟩⟩
      = .crashed := by
  simp only [genStepF, validDirections_one_two_start, List.length_cons,
    List.length_nil]
  simp [hk, Maze.setSide, Position.translate, List.getD, Maze.new]

theorem genStep_one_two_south (oracle : Nat → Nat) (hk : oracle 0 % 2 = 1) :
    ∃ mz : Maze,
      genStepF oracle 0 ⟨Maze.new ⟨1, 2⟩ true, [⟨0, 0⟩], [⟨0, 0⟩], ⟨0, 0⟩⟩
        = .next ⟨mz, [⟨0, 1⟩, ⟨0, 0⟩], [⟨0, 1⟩, ⟨0, 0⟩], ⟨0, 1⟩⟩ ∧
      mz.size = ⟨1, 2⟩ := by
  simp only [genStepF, validDirections_one_two_start, List.length_cons,
    List.length_nil]
  simp only [hk, Maze.setSide, Position.translate, List.getD, Maze.new]
  exact ⟨_, rfl, rfl⟩

theorem genStep_one_two_second_crashes (oracle : Nat → Nat) (n : Nat)
    (mz : Maze) (h : mz.size = ⟨1, 2⟩) :
    genStepF oracle n ⟨mz, [⟨0, 1⟩, ⟨0, 0⟩], [⟨0, 1⟩, ⟨0, 0⟩], ⟨0, 1⟩⟩
      = .crashed := by
  simp only [genStepF, validDirections_one_two_second mz h, List.length_cons,
    List.length_nil, Nat.mod_one]
  simp [Maze.setSide, h, Position.translate, List.getD]

/-- C1: the claim asserts that for every size W×H with W,H ≥ 1, on a freshly
constructed fully walled maze `generate_maze` removes exactly W×H − 1 matched
wall pairs and leaves a spanning tree.  The code refutes this already at size
1×2: because of the `else if` in `get_valid_directions`, the out-of-grid
direction East stays valid on a width-1 maze, and the generator inevitably
panics on `get_mut_tile(...).unwrap()` before it can terminate — for every
random-draw sequence and every iteration budget, `generate_maze` on the fully
walled 1×2 maze never returns a maze at all. -/
theorem generate_one_two_never_succeeds (oracle : Nat → Nat) (fuel : Nat)
    (m' : Maze) :
    (Maze.new ⟨1, 2⟩ true).generateMaze oracle fuel ≠ .ok m' := by
  intro h
  match fuel with
  | 0 => simp [Maze.generateMaze, genLoop] at h
  | f + 1 =>
    rw [Maze.generateMaze] at h
    rcases Nat.mod_two_eq_zero_or_one (oracle 0) with hk | hk
    · simp only [genLoop, genStep_one_two_east_crashes oracle hk] at h
      exact Except.noConfusion h
    · obtain ⟨mz, hstep, hsz⟩ := genStep_one_two_south oracle hk
      simp only [genLoop, hstep] at h
      match f with
      | 0 => simp [genLoop] at h
      | f2 + 1 =>
        simp only [genLoop, genStep_one_two_second_crashes oracle 1 mz hsz]
          at h
        exact Except.noConfusion h

/-- C1 witness: the theorem applied at a concrete oracle, fuel and maze. -/
theorem generate_one_two_never_succeeds_witness :
    (Maze.new ⟨1, 2⟩ true).generateMaze (fun _ => 0) 5
      ≠ .ok (Maze.new ⟨1, 2⟩ true) :=
  generate_one_two_never_succeeds (fun _ => 0) 5 (Maze.new ⟨1, 2⟩ true)

/-- C3: the claim asserts that a direction leading out of the grid is never
in the set computed by `get_valid_directions`.  On a 1×1 maze at `(0,0)` the
computed set is `[East, South]`, and both directions translate to positions
outside the grid (x ≥ width, resp. y ≥ height): the `else if` skips the
max-coordinate check whenever the coordinate is 0. -/
theorem valid_directions_escape_grid :
    (Maze.new ⟨1, 1⟩ true).getValidDirections ⟨0, 0⟩ [⟨0, 0⟩]
        = [.east, .south] ∧
    (Maze.new ⟨1, 1⟩ true).size.w ≤ (Position.translate ⟨0, 0⟩ .east).x ∧
    (Maze.new ⟨1, 1⟩ true).size.h ≤ (Position.translate ⟨0, 0⟩ .south).y := by
  decide

/-- C7: the claim asserts that on a 1×1 maze the valid-directions set is
empty on every iteration and generation terminates immediately without
panicking.  In fact the set is `[East, South]` and the very first iteration
panics in `get_mut_tile(...).unwrap()` after stepping out of the grid, for
every random-draw sequence; the solver half of the claim does hold: on a 1×1
maze `solve_maze` returns the single-element path `[(0,0)]`. -/
theorem one_one_generate_crashes_solve_singleton (oracle : Nat → Nat)
    (fuel : Nat) (h : 1 ≤ fuel) :
    (Maze.new ⟨1, 1⟩ true).generateMaze oracle fuel = .error .crashed ∧
    (Maze.new ⟨1, 1⟩ true).solveMaze oracle fuel = .ok [⟨0, 0⟩] := by
  obtain ⟨f, rfl⟩ : ∃ f, fuel = f + 1 := ⟨fuel - 1, by omega⟩
  constructor
  · rw [Maze.generateMaze]
    simp only [genLoop, genStep_one_one_crashes oracle]
  · rw [Maze.solveMaze]
    simp only [solveLoop, solveStepF]
    rw [if_pos
      (show (⟨0, 0⟩ : Position) = (Maze.new ⟨1, 1⟩ true).size.getMaxPos
        from rfl)]
    rfl

/-- C7 witness: the concrete instance at fuel 1 with the constant oracle. -/
theorem one_one_generate_crashes_solve_singleton_witness :
    (1 : Nat) ≤ 1 ∧
    ((Maze.new ⟨1, 1⟩ true).generateMaze (fun _ => 0) 1 = .error .crashed ∧
     (Maze.new ⟨1, 1⟩ true).solveMaze (fun _ => 0) 1 = .ok [⟨0, 0⟩]) :=
  ⟨le_refl 1, one_one_generate_crashes_solve_singleton (fun _ => 0) 1
    (le_refl 1)⟩

/-- C8: the claim asserts that on a `Size(2,1)` maze generation terminates
for every sequence of random draws, with the single internal wall opened.  In
fact generation never terminates successfully on that size: the `else if` bug
keeps South "valid" on a height-1 maze, so the run either picks South at
`(0,0)` and panics at once, or walks East to `(1,0)` where South is the only
valid direction and the next iteration panics — for every random-draw
sequence and every iteration budget, no maze is ever returned. -/
theorem generate_two_one_never_succeeds (oracle : Nat → Nat) (fuel : Nat)
    (m' : Maze) :
    (Maze.new ⟨2, 1⟩ true).generateMaze oracle fuel ≠ .ok m' := by
  intro h
  match fuel with
  | 0 => simp [Maze.generateMaze, genLoop] at h
  | f + 1 =>
    rw [Maze.generateMaze] at h
    rcases Nat.mod_two_eq_zero_or_one (oracle 0) with hk | hk
    · obtain ⟨mz, hstep, hsz⟩ := genStep_two_one_east oracle hk
      simp only [genLoop, hstep] at h
      match f with
      | 0 => simp [genLoop] at h
      | f2 + 1 =>
        simp only [genLoop, genStep_two_one_second_crashes oracle 1 mz hsz]
          at h
        exact Except.noConfusion h
    · simp only [genLoop, genStep_two_one_south_crashes oracle hk] at h
      exact Except.noConfusion h

/-- C8 witness: the theorem applied at a concrete oracle, fuel and maze. -/
theorem generate_two_one_never_succeeds_witness :
    (Maze.new ⟨2, 1⟩ true).generateMaze (fun _ => 0) 5
      ≠ .ok (Maze.new ⟨2, 1⟩ true) :=
  generate_two_one_never_succeeds (fun _ => 0) 5 (Maze.new ⟨2, 1⟩ true)

/-! ## Vector construction from endpoints (C4, C9) -/

theorem signumDirection_pp :
    signumDirection ((1 : Int), (1 : Int)) = .error .invalidInput := rfl

theorem signumDirection_pn :
    signumDirection ((1 : Int), (-1 : Int)) = .error .invalidInput := rfl

theorem signumDirection_np :
    signumDirection ((-1 : Int), (1 : Int)) = .error .invalidInput := rfl

theorem signumDirection_nn :
    signumDirection ((-1 : Int), (-1 : Int)) = .error .invalidInput := rfl

theorem signumDirection_zz :
    signumDirection ((0 : Int), (0 : Int)) = .error .invalidInput := rfl

theorem signumDirection_east :
    signumDirection ((1 : Int), (0 : Int)) = .ok .east := rfl

theorem signumDirection_west :
    signumDirection ((-1 : Int), (0 : Int)) = .ok .west := rfl

theorem signumDirection_south :
    signumDirection ((0 : Int), (1 : Int)) = .ok .south := rfl

theorem signumDirection_north :
    signumDirection ((0 : Int), (-1 : Int)) = .ok .north := rfl

/-- C4: `Vector::new_from_points(a, b)` fails exactly when `a` and `b` are
not aligned on a single axis (their displacement is non-zero on both axes or
on neither); on success the origin is `a`, the direction is the one inferred
from the sign of the coordinate delta, the magnitude is the Manhattan
distance plus one, and `get_end()` of the constructed vector is `b`. -/
theorem newFromPoints_single_axis_characterization (a b : Position) :
    (Vector.newFromPoints a b = .error .invalidInput ↔
      ¬ singleAxisAligned a b) ∧
    ∀ v, Vector.newFromPoints a b = .ok v →
      v.origin = a ∧ some v.direction = deltaDirection a b ∧
      v.magnitude = manhattanDist a b + 1 ∧ v.getEnd = b := by
  obtain ⟨ax, ay⟩ := a
  obtain ⟨bx, byy⟩ := b
  rcases Nat.lt_trichotomy ax bx with hx | hx | hx <;>
    rcases Nat.lt_trichotomy ay byy with hy | hy | hy
  · have h1 : ((bx : Int) - (ax : Int)).sign = 1 :=
      Int.sign_eq_one_iff_pos.mpr (by omega)
    have h2 : ((byy : Int) - (ay : Int)).sign = 1 :=
      Int.sign_eq_one_iff_pos.mpr (by omega)
    simp only [Vector.newFromPoints, h1, h2, signumDirection_pp]
    refine ⟨iff_of_true trivial ?_, fun v hv => Except.noConfusion hv⟩
    intro hn
    rcases hn with ⟨h1', h2'⟩ | ⟨h1', h2'⟩ <;> simp only at h1' h2' <;> omega
  · have h1 : ((bx : Int) - (ax : Int)).sign = 1 :=
      Int.sign_eq_one_iff_pos.mpr (by omega)
    have h2 : ((byy : Int) - (ay : Int)) = 0 := by omega
    simp only [Vector.newFromPoints, h1, h2, Int.sign_zero,
      signumDirection_east]
    constructor
    · exact iff_of_false (by simp)
        (fun hn => hn (Or.inr ⟨Nat.ne_of_lt hx, hy⟩))
    · intro v hv
      simp only [Except.ok.injEq] at hv
      subst hv
      refine ⟨rfl, ?_, ?_, ?_⟩
      · simp only [deltaDirection, Vector.new]
        rw [if_neg (by omega), if_pos ⟨hy, hx⟩]
      · simp only [Vector.new, manhattanDist]
        omega
      · simp only [Vector.new, Vector.getEnd, Position.mk.injEq]
        omega
  · have h1 : ((bx : Int) - (ax : Int)).sign = 1 :=
      Int.sign_eq_one_iff_pos.mpr (by omega)
    have h2 : ((byy : Int) - (ay : Int)).sign = -1 :=
      Int.sign_eq_neg_one_iff_neg.mpr (by omega)
    simp only [Vector.newFromPoints, h1, h2, signumDirection_pn]
    refine ⟨iff_of_true trivial ?_, fun v hv => Except.noConfusion hv⟩
    intro hn
    rcases hn with ⟨h1', h2'⟩ | ⟨h1', h2'⟩ <;> simp only at h1' h2' <;> omega
  · have h1 : ((bx : Int) - (ax : Int)) = 0 := by omega
    have h2 : ((byy : Int) - (ay : Int)).sign = 1 :=
      Int.sign_eq_one_iff_pos.mpr (by omega)
    simp only [Vector.newFromPoints, h1, h2, Int.sign_zero,
      signumDirection_south]
    constructor
    · exact iff_of_false (by simp)
        (fun hn => hn (Or.inl ⟨hx, Nat.ne_of_lt hy⟩))
    · intro v hv
      simp only [Except.ok.injEq] at hv
      subst hv
      refine ⟨rfl, ?_, ?_, ?_⟩
      · simp only [deltaDirection, Vector.new]
        rw [if_neg (by omega), if_neg (by omega), if_pos ⟨hx, hy⟩]
      · simp only [Vector.new, manhattanDist]
        omega
      · simp only [Vector.new, Vector.getEnd, Position.mk.injEq]
        omega
  · have h1 : ((bx : Int) - (ax : Int)) = 0 := by omega
    have h2 : ((byy : Int) - (ay : Int)) = 0 := by omega
    simp only [Vector.newFromPoints, h1, h2, Int.sign_zero, signumDirection_zz]
    refine ⟨iff_of_true trivial ?_, fun v hv => Except.noConfusion hv⟩
    intro hn
    rcases hn with ⟨h1', h2'⟩ | ⟨h1', h2'⟩ <;> simp only at h1' h2' <;> omega
  · have h1 : ((bx : Int) - (ax : Int)) = 0 := by omega
    have h2 : ((byy : Int) - (ay : Int)).sign = -1 :=
      Int.sign_eq_neg_one_iff_neg.mpr (by omega)
    simp only [Vector.newFromPoints, h1, h2, Int.sign_zero,
      signumDirection_north]
    constructor
    · exact iff_of_false (by simp)
        (fun hn => hn (Or.inl ⟨hx, Nat.ne_of_gt hy⟩))
    · intro v hv
      simp only [Except.ok.injEq] at hv
      subst hv
      refine ⟨rfl, ?_, ?_, ?_⟩
      · simp only [deltaDirection, Vector.new]
        rw [if_pos ⟨hx, hy⟩]
      · simp only [Vector.new, manhattanDist]
        omega
      · simp only [Vector.new, Vector.getEnd, Position.mk.injEq]
        omega
  · have h1 : ((bx : Int) - (ax : Int)).sign = -1 :=
      Int.sign_eq_neg_one_iff_neg.mpr (by omega)
    have h2 : ((byy : Int) - (ay : Int)).sign = 1 :=
      Int.sign_eq_one_iff_pos.mpr (by omega)
    simp only [Vector.newFromPoints, h1, h2, signumDirection_np]
    refine ⟨iff_of_true trivial ?_, fun v hv => Except.noConfusion hv⟩
    intro hn
    rcases hn with ⟨h1', h2'⟩ | ⟨h1', h2'⟩ <;> simp only at h1' h2' <;> omega
  · have h1 : ((bx : Int) - (ax : Int)).sign = -1 :=
      Int.sign_eq_neg_one_iff_neg.mpr (by omega)
    have h2 : ((byy : Int) - (ay : Int)) = 0 := by omega
    simp only [Vector.newFromPoints, h1, h2, Int.sign_zero,
      signumDirection_west]
    constructor
    · exact iff_of_false (by simp)
        (fun hn => hn (Or.inr ⟨Nat.ne_of_gt hx, hy⟩))
    · intro v hv
      simp only [Except.ok.injEq] at hv
      subst hv
      refine ⟨rfl, ?_, ?_, ?_⟩
      · simp only [deltaDirection, Vector.new]
        rw [if_neg (by omega), if_neg (by omega), if_neg (by omega),
          if_pos ⟨hy, hx⟩]
      · simp only [Vector.new, manhattanDist]
        omega
      · simp only [Vector.new, Vector.getEnd, Position.mk.injEq]
        omega
  · have h1 : ((bx : Int) - (ax : Int)).sign = -1 :=
      Int.sign_eq_neg_one_iff_neg.mpr (by omega)
    have h2 : ((byy : Int) - (ay : Int)).sign = -1 :=
      Int.sign_eq_neg_one_iff_neg.mpr (by omega)
    simp only [Vector.newFromPoints, h1, h2, signumDirection_nn]
    refine ⟨iff_of_true trivial ?_, fun v hv => Except.noConfusion hv⟩
    intro hn
    rcases hn with ⟨h1', h2'⟩ | ⟨h1', h2'⟩ <;> simp only at h1' h2' <;> omega

/-- C4 witness: concrete evaluation at `(1,1)` and `(4,1)`. -/
theorem newFromPoints_single_axis_characterization_witness :
    Vector.newFromPoints ⟨1, 1⟩ ⟨4, 1⟩ = .ok (Vector.new ⟨1, 1⟩ .east 4) ∧
    ((Vector.new ⟨1, 1⟩ .east 4).origin = (⟨1, 1⟩ : Position) ∧
      some (Vector.new ⟨1, 1⟩ .east 4).direction
        = deltaDirection ⟨1, 1⟩ ⟨4, 1⟩ ∧
      (Vector.new ⟨1, 1⟩ .east 4).magnitude
        = manhattanDist ⟨1, 1⟩ ⟨4, 1⟩ + 1 ∧
      (Vector.new ⟨1, 1⟩ .east 4).getEnd = (⟨4, 1⟩ : Position)) :=
  ⟨by rfl,
    (newFromPoints_single_axis_characterization ⟨1, 1⟩ ⟨4, 1⟩).2 _ (by rfl)⟩

theorem newFromPoints_self (p : Position) :
    Vector.newFromPoints p p = .error .invalidInput := by
  simp only [Vector.newFromPoints, Int.sub_self, Int.sign_zero]
  rfl

/-- C9: `Vector::new_from_points(p, p)` returns `InvalidInput` for every
position `p` — a zero-length segment cannot be constructed even though the
two identical endpoints trivially lie on one axis — and consequently
`draw_path` never succeeds on a path containing two equal consecutive
positions (it either propagates that error or fails earlier). -/
theorem zero_length_vector_rejected :
    (∀ p : Position, Vector.newFromPoints p p = .error .invalidInput) ∧
    ∀ (symbol : Char) (a : Position) (post pre : List Position)
      (dsp d' : Display),
      dsp.drawPath (pre ++ a :: a :: post) symbol ≠ some (d', .ok ()) := by
  refine ⟨newFromPoints_self, fun symbol a post => ?_⟩
  intro pre
  induction pre with
  | nil =>
    intro dsp d' h
    rw [Display.drawPath] at h
    simp only [List.nil_append, drawPathAux, newFromPoints_self] at h
    simp at h
  | cons x pre' ih =>
    intro dsp d' h
    rw [Display.drawPath] at h
    rcases hrest : pre' ++ a :: a :: post with _ | ⟨y, rest'⟩
    · exact absurd hrest (by simp)
    · rw [List.cons_append, hrest, drawPathAux] at h
      split at h
      · simp at h
      · split at h
        · exact Option.noConfusion h
        · exact ih _ d' (by rw [Display.drawPath, hrest]; exact h)

/-- C9 witness: the theorem instantiated at a concrete repeated pair. -/
theorem zero_length_vector_rejected_witness :
    Vector.newFromPoints ⟨2, 3⟩ ⟨2, 3⟩ = .error .invalidInput ∧
    (Display.new ⟨0, 0⟩ ⟨3, 3⟩).drawPath [⟨1, 1⟩, ⟨1, 1⟩] pointChar
      ≠ some (Display.new ⟨0, 0⟩ ⟨3, 3⟩, .ok ()) :=
  ⟨zero_length_vector_rejected.1 ⟨2, 3⟩,
    zero_length_vector_rejected.2 pointChar ⟨1, 1⟩ [] []
      (Display.new ⟨0, 0⟩ ⟨3, 3⟩) (Display.new ⟨0, 0⟩ ⟨3, 3⟩)⟩

/-! ## Canvas size check of draw_maze (C5) -/

/-- C5: `draw_maze` returns the input-mismatch error exactly when the canvas
size differs from the maze's cell count × 2 + 1 in either axis, and whenever
it returns an error the display — in particular its character buffer — is the
unmodified original. -/
theorem drawMaze_error_iff_size_mismatch (dsp : Display) (maze : Maze) :
    (dsp.drawMaze maze = some (dsp, .error .invalidInput) ↔
      dsp.size ≠ ⟨maze.size.w * 2 + 1, maze.size.h * 2 + 1⟩) ∧
    ∀ d' e, dsp.drawMaze maze = some (d', .error e) → d' = dsp := by
  have hreq : (Display.newFromMaze dsp.origin maze).size
      = ⟨maze.size.w * 2 + 1, maze.size.h * 2 + 1⟩ := rfl
  by_cases hsz : dsp.size = ⟨maze.size.w * 2 + 1, maze.size.h * 2 + 1⟩
  · have hok : ∀ r, dsp.drawMaze maze = some r → r.2 = .ok () := by
      intro r hr
      rw [Display.drawMaze, hreq, if_pos hsz] at hr
      split at hr
      · exact Option.noConfusion hr
      · split at hr
        · exact Option.noConfusion hr
        · simp only [Option.some.injEq] at hr
          rw [← hr]
    constructor
    · constructor
      · intro h
        have := hok _ h
        simp at this
      · intro h
        exact absurd hsz h
    · intro d' e h
      have := hok _ h
      simp at this
  · have hres : dsp.drawMaze maze = some (dsp, .error .invalidInput) := by
      rw [Display.drawMaze, hreq, if_neg hsz]
    refine ⟨iff_of_true hres hsz, ?_⟩
    intro d' e h
    rw [hres] at h
    simp only [Option.some.injEq, Prod.mk.injEq] at h
    exact h.1.symm

/-- C5 witness: a 1×1 canvas with a 1×1 maze (required size 3×3) errors and
returns the untouched display. -/
theorem drawMaze_error_iff_size_mismatch_witness :
    (Display.new ⟨0, 0⟩ ⟨1, 1⟩).size
        ≠ (⟨(Maze.new ⟨1, 1⟩ true).size.w * 2 + 1,
            (Maze.new ⟨1, 1⟩ true).size.h * 2 + 1⟩ : Size) ∧
    (Display.new ⟨0, 0⟩ ⟨1, 1⟩).drawMaze (Maze.new ⟨1, 1⟩ true)
      = some (Display.new ⟨0, 0⟩ ⟨1, 1⟩, .error .invalidInput) :=
  ⟨by decide,
    ((drawMaze_error_iff_size_mismatch (Display.new ⟨0, 0⟩ ⟨1, 1⟩)
      (Maze.new ⟨1, 1⟩ true)).1).mpr (by decide)⟩

/-! ## draw_path partial mutation (C10) -/

theorem newFromPoints_error_of_not_aligned (a b : Position)
    (h : ¬ singleAxisAligned a b) :
    Vector.newFromPoints a b = .error .invalidInput := by
  obtain ⟨ax, ay⟩ := a
  obtain ⟨bx, byy⟩ := b
  rcases Nat.lt_trichotomy ax bx with hx | hx | hx <;>
    rcases Nat.lt_trichotomy ay byy with hy | hy | hy
  · have h1 : ((bx : Int) - (ax : Int)).sign = 1 :=
      Int.sign_eq_one_iff_pos.mpr (by omega)
    have h2 : ((byy : Int) - (ay : Int)).sign = 1 :=
      Int.sign_eq_one_iff_pos.mpr (by omega)
    simp only [Vector.newFromPoints, h1, h2, signumDirection_pp]
  · exact absurd (Or.inr ⟨Nat.ne_of_lt hx, hy⟩) h
  · have h1 : ((bx : Int) - (ax : Int)).sign = 1 :=
      Int.sign_eq_one_iff_pos.mpr (by omega)
    have h2 : ((byy : Int) - (ay : Int)).sign = -1 :=
      Int.sign_eq_neg_one_iff_neg.mpr (by omega)
    simp only [Vector.newFromPoints, h1, h2, signumDirection_pn]
  · exact absurd (Or.inl ⟨hx, Nat.ne_of_lt hy⟩) h
  · have h1 : ((bx : Int) - (ax : Int)) = 0 := by omega
    have h2 : ((byy : Int) - (ay : Int)) = 0 := by omega
    simp only [Vector.newFromPoints, h1, h2, Int.sign_zero, signumDirection_zz]
  · exact absurd (Or.inl ⟨hx, Nat.ne_of_gt hy⟩) h
  · have h1 : ((bx : Int) - (ax : Int)).sign = -1 :=
      Int.sign_eq_neg_one_iff_neg.mpr (by omega)
    have h2 : ((byy : Int) - (ay : Int)).sign = 1 :=
      Int.sign_eq_one_iff_pos.mpr (by omega)
    simp only [Vector.newFromPoints, h1, h2, signumDirection_np]
  · exact absurd (Or.inr ⟨Nat.ne_of_gt hx, hy⟩) h
  · have h1 : ((bx : Int) - (ax : Int)).sign = -1 :=
      Int.sign_eq_neg_one_iff_neg.mpr (by omega)
    have h2 : ((byy : Int) - (ay : Int)).sign = -1 :=
      Int.sign_eq_neg_one_iff_neg.mpr (by omega)
    simp only [Vector.newFromPoints, h1, h2, signumDirection_nn]

/-- C10 counterexample: the claim "for every path whose first non-axis-aligned
consecutive pair is preceded by at least one axis-aligned pair, draw_path
returns an error" is false as stated: on a 3×3 canvas the path
`[(0,0), (4,0), (5,2)]` has an axis-aligned first pair followed by a
non-aligned pair, yet `draw_path` panics on an out-of-bounds buffer write
while drawing the first segment (modelled as `none`), so no error is
returned. -/
theorem draw_path_error_claim_counterexample :
    singleAxisAligned ⟨0, 0⟩ ⟨4, 0⟩ ∧
    ¬ singleAxisAligned ⟨4, 0⟩ ⟨5, 2⟩ ∧
    ((Display.new ⟨0, 0⟩ ⟨3, 3⟩).drawPath [⟨0, 0⟩, ⟨4, 0⟩, ⟨5, 2⟩]
        pointChar).isNone = true := by
  decide

/-- C10 (amended): for every path of the form
`pre ++ [a, b, …]` whose first non-axis-aligned consecutive pair `(a, b)` is
preceded by axis-aligned pairs, *provided the preceding segments draw without
an out-of-bounds panic* (expressed as: drawing the prefix path alone
succeeds, producing buffer `d'`), `draw_path` returns the input-mismatch
error and the buffer holds exactly the preceding segments' writes — it equals
`d'`, the result of drawing the prefix. -/
theorem draw_path_prefix_drawn_then_error (symbol : Char) (a b : Position)
    (post : List Position) (hab : ¬ singleAxisAligned a b) :
    ∀ (pre : List Position) (dsp d' : Display),
      dsp.drawPath (pre ++ [a]) symbol = some (d', .ok ()) →
      dsp.drawPath (pre ++ a :: b :: post) symbol
        = some (d', .error .invalidInput) := by
  intro pre
  induction pre with
  | nil =>
    intro dsp d' h
    rw [Display.drawPath] at h
    simp only [List.nil_append, drawPathAux, Option.some.injEq,
      Prod.mk.injEq] at h
    rw [Display.drawPath, List.nil_append, drawPathAux,
      newFromPoints_error_of_not_aligned a b hab, h.1]
  | cons x pre' ih =>
    intro dsp d' h
    rcases hrest : pre' ++ [a] with _ | ⟨y, rest⟩
    · exact absurd hrest (by simp)
    · have hl : pre' ++ a :: b :: post = y :: (rest ++ b :: post) := by
        rw [List.append_cons pre' a (b :: post), hrest]
        rfl
      rw [Display.drawPath, List.cons_append, hrest, drawPathAux] at h
      rw [Display.drawPath, List.cons_append, hl, drawPathAux]
      rcases hv : Vector.newFromPoints x y with e | v
      · rw [hv] at h
        simp at h
      · rw [hv] at h
        simp only [] at h ⊢
        rcases hd : dsp.drawLine v symbol with _ | d2
        · rw [hd] at h
          simp at h
        · rw [hd] at h
          simp only [] at h ⊢
          have h2 := ih d2 d' (by rw [Display.drawPath, hrest]; exact h)
          rw [Display.drawPath, hl] at h2
          exact h2

/-- C10 witness: on a 3×3 canvas, path `[(0,0), (2,0), (1,2)]` — the aligned
first segment is drawn, then the non-aligned pair returns the error with the
buffer holding exactly that first segment. -/
theorem draw_path_prefix_drawn_then_error_witness :
    ¬ singleAxisAligned ⟨2, 0⟩ ⟨1, 2⟩ ∧
    (Display.new ⟨0, 0⟩ ⟨3, 3⟩).drawPath [⟨0, 0⟩, ⟨2, 0⟩] pointChar
      = some (⟨⟨0, 0⟩, [['•', '•', '•'], [' ', ' ', ' '], [' ', ' ', ' ']],
          ⟨3, 3⟩⟩, .ok ()) ∧
    (Display.new ⟨0, 0⟩ ⟨3, 3⟩).drawPath [⟨0, 0⟩, ⟨2, 0⟩, ⟨1, 2⟩] pointChar
      = some (⟨⟨0, 0⟩, [['•', '•', '•'], [' ', ' ', ' '], [' ', ' ', ' ']],
          ⟨3, 3⟩⟩, .error .invalidInput) :=
  ⟨by decide, by rfl,
    draw_path_prefix_drawn_then_error pointChar ⟨2, 0⟩ ⟨1, 2⟩ [] (by decide)
      [⟨0, 0⟩] (Display.new ⟨0, 0⟩ ⟨3, 3⟩) _ (by rfl)⟩

/-! ## draw_line span and reversal invariance (C6) -/

theorem lget_set_self {α : Type} (l : List α) (i : Nat) (a : α)
    (h : i < l.length) : (l.set i a).get? i = some a := by
  rw [List.get?_set_eq]
  rw [List.get?_eq_get h]
  rfl

theorem lget_set_ne {α : Type} (l : List α) (i j : Nat) (a : α)
    (h : j ≠ i) : (l.set i a).get? j = l.get? j :=
  List.get?_set_ne a l (Ne.symm h)

theorem lget_some {α : Type} (l : List α) (i : Nat) (h : i < l.length) :
    ∃ a, l.get? i = some a := by
  cases hg : l.get? i with
  | none => exact absurd (List.get?_eq_none.mp hg) (by omega)
  | some r => exact ⟨r, rfl⟩

theorem writeRun_spec (count : Nat) :
    ∀ (row : List Char) (i : Nat) (symbol : Char), i + count ≤ row.length →
    ∃ row', writeRun row i count symbol = some row' ∧
      row'.length = row.length ∧
      ∀ j, row'.get? j
        = if i ≤ j ∧ j < i + count then some symbol else row.get? j := by
  induction count with
  | zero =>
    intro row i symbol _
    exact ⟨row, rfl, rfl, fun j => by rw [if_neg (by omega)]⟩
  | succ n ih =>
    intro row i symbol h
    have hi : i < row.length := by omega
    obtain ⟨row', hwr, hlen, hget⟩ :=
      ih (row.set i symbol) (i + 1) symbol (by rw [List.length_set]; omega)
    refine ⟨row', ?_, ?_, ?_⟩
    · rw [writeRun, if_pos hi, hwr]
    · rw [hlen, List.length_set]
    · intro j
      rw [hget j]
      by_cases hj : i + 1 ≤ j ∧ j < i + 1 + n
      · rw [if_pos hj, if_pos (by omega)]
      · rw [if_neg hj]
        by_cases hji : j = i
        · subst hji
          rw [if_pos (by omega), lget_set_self row j symbol hi]
        · rw [if_neg (by omega), lget_set_ne row i j symbol hji]

theorem writeColRun_spec (count : Nat) :
    ∀ (px : List (List Char)) (x i : Nat) (symbol : Char),
      i + count ≤ px.length →
      (∀ j r, px.get? j = some r → x < r.length) →
      ∃ px', writeColRun px x i count symbol = some px' ∧
        px'.length = px.length ∧
        ∀ j, px'.get? j
          = if i ≤ j ∧ j < i + count
            then (px.get? j).map (fun row => row.set x symbol)
            else px.get? j := by
  induction count with
  | zero =>
    intro px x i symbol _ _
    exact ⟨px, rfl, rfl, fun j => by rw [if_neg (by omega)]⟩
  | succ n ih =>
    intro px x i symbol h hx
    have hi : i < px.length := by omega
    obtain ⟨row, hrow⟩ := lget_some px i hi
    have hxr : x < row.length := hx i row hrow
    have hx2 : ∀ j r, (px.set i (row.set x symbol)).get? j = some r →
        x < r.length := by
      intro j r hg
      by_cases hji : j = i
      · subst hji
        rw [lget_set_self px j (row.set x symbol) hi] at hg
        cases hg
        rw [List.length_set]
        exact hxr
      · exact hx j r (by rw [lget_set_ne px i j _ hji] at hg; exact hg)
    obtain ⟨px', hwr, hlen, hget⟩ :=
      ih (px.set i (row.set x symbol)) x (i + 1) symbol
        (by rw [List.length_set]; omega) hx2
    refine ⟨px', ?_, ?_, ?_⟩
    · rw [writeColRun, hrow]
      simp only []
      rw [if_pos hxr, hwr]
    · rw [hlen, List.length_set]
    · intro j
      rw [hget j]
      by_cases hj : i + 1 ≤ j ∧ j < i + 1 + n
      · rw [if_pos hj, if_pos (by omega),
          lget_set_ne px i j _ (by omega)]
      · rw [if_neg hj]
        by_cases hji : j = i
        · subst hji
          rw [if_pos (by omega), lget_set_self px j _ hi, hrow]
          rfl
        · rw [if_neg (by omega), lget_set_ne px i j _ hji]

theorem rowUpdate_spec (dsp : Display) (symbol : Char) (oy lo hi : Nat)
    (hwf : dsp.wf) (hy : oy < dsp.size.h) (hhi : hi < dsp.size.w)
    (hlo : lo ≤ hi) :
    ∃ row row', dsp.pixels.get? oy = some row ∧
      writeRange row lo hi symbol = some row' ∧
      ∀ x y,
        (Display.mk dsp.origin (dsp.pixels.set oy row') dsp.size).pixel x y
          = if y = oy ∧ lo ≤ x ∧ x ≤ hi then some symbol
            else dsp.pixel x y := by
  obtain ⟨hlen, hrows⟩ := hwf
  have hylt : oy < dsp.pixels.length := by omega
  obtain ⟨row, hget⟩ := lget_some dsp.pixels oy hylt
  have hrlen : row.length = dsp.size.w := hrows row (List.get?_mem hget)
  obtain ⟨row', hwr, hlen', hget'⟩ :=
    writeRun_spec (hi + 1 - lo) row lo symbol (by omega)
  refine ⟨row, row', hget, hwr, ?_⟩
  intro x y
  unfold Display.pixel
  by_cases hyy : y = oy
  · subst hyy
    rw [lget_set_self dsp.pixels y row' hylt, hget, Option.some_bind,
      Option.some_bind, hget' x]
    by_cases hx : lo ≤ x ∧ x < lo + (hi + 1 - lo)
    · rw [if_pos hx, if_pos ⟨rfl, by omega⟩]
    · rw [if_neg hx, if_neg (by omega)]
  · rw [lget_set_ne dsp.pixels oy y row' hyy, if_neg (by tauto)]

theorem colUpdate_spec (dsp : Display) (symbol : Char) (ox lo hi : Nat)
    (hwf : dsp.wf) (hx : ox < dsp.size.w) (hhi : hi < dsp.size.h)
    (hlo : lo ≤ hi) :
    ∃ px', writeColRange dsp.pixels ox lo hi symbol = some px' ∧
      ∀ x y, (Display.mk dsp.origin px' dsp.size).pixel x y
        = if x = ox ∧ lo ≤ y ∧ y ≤ hi then some symbol
          else dsp.pixel x y := by
  obtain ⟨hlen, hrows⟩ := hwf
  have hxw : ∀ j r, dsp.pixels.get? j = some r → ox < r.length := by
    intro j r hg
    rw [hrows r (List.get?_mem hg)]
    exact hx
  obtain ⟨px', hwc, hlen', hget'⟩ :=
    writeColRun_spec (hi + 1 - lo) dsp.pixels ox lo symbol (by omega) hxw
  refine ⟨px', hwc, ?_⟩
  intro x y
  unfold Display.pixel
  simp only []
  rw [hget' y]
  by_cases hy : lo ≤ y ∧ y < lo + (hi + 1 - lo)
  · rw [if_pos hy]
    obtain ⟨row, hrow⟩ := lget_some dsp.pixels y (by omega)
    have hmap : Option.map (fun row => row.set ox symbol) (some row)
        = some (row.set ox symbol) := rfl
    rw [hrow, hmap, Option.some_bind, Option.some_bind]
    by_cases hxx : x = ox
    · subst hxx
      rw [lget_set_self row x symbol (hxw y row hrow),
        if_pos ⟨rfl, by omega⟩]
    · rw [lget_set_ne row ox x symbol hxx, if_neg (by tauto)]
  · have hneg : ¬(x = ox ∧ lo ≤ y ∧ y ≤ hi) := by omega
    rw [if_neg hy, if_neg hneg]

/-- C6: for every in-bounds axis-aligned vector and symbol, `draw_line`
succeeds, writes the symbol into every buffer cell on the vector's inclusive
span, changes no other buffer cell, and drawing the vector's reversal (origin
at the other end, opposite direction, same magnitude) produces the identical
display. -/
theorem drawLine_writes_span_and_reversal_invariant
    (dsp : Display) (v : Vector) (symbol : Char)
    (hwf : dsp.wf) (hb : v.inBounds dsp) :
    ∃ d', dsp.drawLine v symbol = some d' ∧
      (∀ x y, v.onSpan x y → d'.pixel x y = some symbol) ∧
      (∀ x y, ¬ v.onSpan x y → d'.pixel x y = dsp.pixel x y) ∧
      dsp.drawLine v.reversal symbol = some d' := by
  obtain ⟨⟨ox, oy⟩, dir, m⟩ := v
  cases dir with
  | east =>
    simp only [Vector.inBounds] at hb
    obtain ⟨hm, hxw, hyh⟩ := hb
    obtain ⟨row, row', hget, hwr, hpix⟩ :=
      rowUpdate_spec dsp symbol oy ox (ox + (m - 1)) hwf hyh hxw (by omega)
    have hD : Display.drawLine dsp ⟨⟨ox, oy⟩, .east, m⟩ symbol
        = some ⟨dsp.origin, dsp.pixels.set oy row', dsp.size⟩ := by
      simp only [Display.drawLine]
      rw [hget]
      simp only [Vector.getEnd]
      have h1 : (if ox + (m - 1) > ox then ox else ox + (m - 1)) = ox := by
        split <;> omega
      have h2 : (if ox + (m - 1) > ox then ox + (m - 1) else ox)
          = ox + (m - 1) := by split <;> omega
      rw [h1, h2, hwr]
    have hrev : Vector.reversal ⟨⟨ox, oy⟩, .east, m⟩
        = ⟨⟨ox + (m - 1), oy⟩, .west, m⟩ := rfl
    have hDrev : Display.drawLine dsp
          (Vector.reversal ⟨⟨ox, oy⟩, .east, m⟩) symbol
        = some ⟨dsp.origin, dsp.pixels.set oy row', dsp.size⟩ := by
      rw [hrev]
      simp only [Display.drawLine]
      rw [hget]
      simp only [Vector.getEnd]
      have he : ox + (m - 1) - (m - 1) = ox := by omega
      rw [he]
      have h1 : (if ox > ox + (m - 1) then ox + (m - 1) else ox) = ox := by
        split <;> omega
      have h2 : (if ox > ox + (m - 1) then ox else ox + (m - 1))
          = ox + (m - 1) := by split <;> omega
      rw [h1, h2, hwr]
    refine ⟨⟨dsp.origin, dsp.pixels.set oy row', dsp.size⟩, hD, ?_, ?_, hDrev⟩
    · intro x y hsp
      simp only [Vector.onSpan] at hsp
      rw [hpix x y, if_pos hsp]
    · intro x y hsp
      simp only [Vector.onSpan] at hsp
      rw [hpix x y, if_neg hsp]
  | west =>
    simp only [Vector.inBounds] at hb
    obtain ⟨hm, hmx, hxw, hyh⟩ := hb
    obtain ⟨row, row', hget, hwr, hpix⟩ :=
      rowUpdate_spec dsp symbol oy (ox - (m - 1)) ox hwf hyh hxw (by omega)
    have hD : Display.drawLine dsp ⟨⟨ox, oy⟩, .west, m⟩ symbol
        = some ⟨dsp.origin, dsp.pixels.set oy row', dsp.size⟩ := by
      simp only [Display.drawLine]
      rw [hget]
      simp only [Vector.getEnd]
      have h1 : (if ox - (m - 1) > ox then ox else ox - (m - 1))
          = ox - (m - 1) := by split <;> omega
      have h2 : (if ox - (m - 1) > ox then ox - (m - 1) else ox) = ox := by
        split <;> omega
      rw [h1, h2, hwr]
    have hrev : Vector.reversal ⟨⟨ox, oy⟩, .west, m⟩
        = ⟨⟨ox - (m - 1), oy⟩, .east, m⟩ := rfl
    have hDrev : Display.drawLine dsp
          (Vector.reversal ⟨⟨ox, oy⟩, .west, m⟩) symbol
        = some ⟨dsp.origin, dsp.pixels.set oy row', dsp.size⟩ := by
      rw [hrev]
      simp only [Display.drawLine]
      rw [hget]
      simp only [Vector.getEnd]
      have he : ox - (m - 1) + (m - 1) = ox := by omega
      rw [he]
      have h1 : (if ox > ox - (m - 1) then ox - (m - 1) else ox)
          = ox - (m - 1) := by split <;> omega
      have h2 : (if ox > ox - (m - 1) then ox else ox - (m - 1)) = ox := by
        split <;> omega
      rw [h1, h2, hwr]
    refine ⟨⟨dsp.origin, dsp.pixels.set oy row', dsp.size⟩, hD, ?_, ?_, hDrev⟩
    · intro x y hsp
      simp only [Vector.onSpan] at hsp
      rw [hpix x y, if_pos hsp]
    · intro x y hsp
      simp only [Vector.onSpan] at hsp
      rw [hpix x y, if_neg hsp]
  | south =>
    simp only [Vector.inBounds] at hb
    obtain ⟨hm, hyh, hxw⟩ := hb
    obtain ⟨px', hwc, hpix⟩ :=
      colUpdate_spec dsp symbol ox oy (oy + (m - 1)) hwf hxw hyh (by omega)
    have hD : Display.drawLine dsp ⟨⟨ox, oy⟩, .south, m⟩ symbol
        = some ⟨dsp.origin, px', dsp.size⟩ := by
      simp only [Display.drawLine, Vector.getEnd]
      have h1 : (if oy + (m - 1) > oy then oy else oy + (m - 1)) = oy := by
        split <;> omega
      have h2 : (if oy + (m - 1) > oy then oy + (m - 1) else oy)
          = oy + (m - 1) := by split <;> omega
      rw [h1, h2, hwc]
    have hrev : Vector.reversal ⟨⟨ox, oy⟩, .south, m⟩
        = ⟨⟨ox, oy + (m - 1)⟩, .north, m⟩ := rfl
    have hDrev : Display.drawLine dsp
          (Vector.reversal ⟨⟨ox, oy⟩, .south, m⟩) symbol
        = some ⟨dsp.origin, px', dsp.size⟩ := by
      rw [hrev]
      simp only [Display.drawLine, Vector.getEnd]
      have he : oy + (m - 1) - (m - 1) = oy := by omega
      rw [he]
      have h1 : (if oy > oy + (m - 1) then oy + (m - 1) else oy) = oy := by
        split <;> omega
      have h2 : (if oy > oy + (m - 1) then oy else oy + (m - 1))
          = oy + (m - 1) := by split <;> omega
      rw [h1, h2, hwc]
    refine ⟨⟨dsp.origin, px', dsp.size⟩, hD, ?_, ?_, hDrev⟩
    · intro x y hsp
      simp only [Vector.onSpan] at hsp
      rw [hpix x y, if_pos hsp]
    · intro x y hsp
      simp only [Vector.onSpan] at hsp
      rw [hpix x y, if_neg hsp]
  | north =>
    simp only [Vector.inBounds] at hb
    obtain ⟨hm, hmy, hyh, hxw⟩ := hb
    obtain ⟨px', hwc, hpix⟩ :=
      colUpdate_spec dsp symbol ox (oy - (m - 1)) oy hwf hxw hyh (by omega)
    have hD : Display.drawLine dsp ⟨⟨ox, oy⟩, .north, m⟩ symbol
        = some ⟨dsp.origin, px', dsp.size⟩ := by
      simp only [Display.drawLine, Vector.getEnd]
      have h1 : (if oy - (m - 1) > oy then oy else oy - (m - 1))
          = oy - (m - 1) := by split <;> omega
      have h2 : (if oy - (m - 1) > oy then oy - (m - 1) else oy) = oy := by
        split <;> omega
      rw [h1, h2, hwc]
    have hrev : Vector.reversal ⟨⟨ox, oy⟩, .north, m⟩
        = ⟨⟨ox, oy - (m - 1)⟩, .south, m⟩ := rfl
    have hDrev : Display.drawLine dsp
          (Vector.reversal ⟨⟨ox, oy⟩, .north, m⟩) symbol
        = some ⟨dsp.origin, px', dsp.size⟩ := by
      rw [hrev]
      simp only [Display.drawLine, Vector.getEnd]
      have he : oy - (m - 1) + (m - 1) = oy := by omega
      rw [he]
      have h1 : (if oy > oy - (m - 1) then oy - (m - 1) else oy)
          = oy - (m - 1) := by split <;> omega
      have h2 : (if oy > oy - (m - 1) then oy else oy - (m - 1)) = oy := by
        split <;> omega
      rw [h1, h2, hwc]
    refine ⟨⟨dsp.origin, px', dsp.size⟩, hD, ?_, ?_, hDrev⟩
    · intro x y hsp
      simp only [Vector.onSpan] at hsp
      rw [hpix x y, if_pos hsp]
    · intro x y hsp
      simp only [Vector.onSpan] at hsp
      rw [hpix x y, if_neg hsp]

/-- C6 witness: a fresh 3×3 canvas is well-formed, the magnitude-3 east
vector from (0, 1) is in bounds, and the span/reversal theorem applies to
them. -/
theorem drawLine_writes_span_and_reversal_invariant_witness :
    (Display.new ⟨0, 0⟩ ⟨3, 3⟩).wf ∧
    (Vector.new ⟨0, 1⟩ .east 3).inBounds (Display.new ⟨0, 0⟩ ⟨3, 3⟩) ∧
    ∃ d', (Display.new ⟨0, 0⟩ ⟨3, 3⟩).drawLine (Vector.new ⟨0, 1⟩ .east 3)
        blockChar = some d' ∧
      (∀ x y, (Vector.new ⟨0, 1⟩ .east 3).onSpan x y →
        d'.pixel x y = some blockChar) ∧
      (∀ x y, ¬ (Vector.new ⟨0, 1⟩ .east 3).onSpan x y →
        d'.pixel x y = (Display.new ⟨0, 0⟩ ⟨3, 3⟩).pixel x y) ∧
      (Display.new ⟨0, 0⟩ ⟨3, 3⟩).drawLine
          (Vector.new ⟨0, 1⟩ .east 3).reversal blockChar = some d' :=
  ⟨⟨rfl, by decide⟩, ⟨by decide, by decide, by decide⟩,
    drawLine_writes_span_and_reversal_invariant (Display.new ⟨0, 0⟩ ⟨3, 3⟩)
      (Vector.new ⟨0, 1⟩ .east 3) blockChar ⟨rfl, by decide⟩
      ⟨by decide, by decide, by decide⟩⟩

/-! ## Full-run verification of generation and solving at size 2×2 (C2)

Size 2×2 is the smallest size at which `generate_maze` ever returns (every
1-wide or 1-tall size panics, see the C1/C7/C8 theorems).  The lemmas below
follow both possible generator runs — the first random draw picks East or
South, every later iteration is forced — and both resulting mazes through the
solver, for arbitrary random oracles and fuel on both sides. -/

theorem genLoop_ok_step (oracle : Nat → Nat) (fuel n : Nat) (s s' : GenState)
    (maze : Maze) (hstep : genStepF oracle n s = .next s')
    (h : genLoop oracle fuel n s = .ok maze) :
    ∃ f, fuel = f + 1 ∧ genLoop oracle f (n + 1) s' = .ok maze := by
  match fuel with
  | 0 => simp [genLoop] at h
  | f + 1 =>
    simp only [genLoop, hstep] at h
    exact ⟨f, rfl, h⟩

theorem genLoop_ok_finish (oracle : Nat → Nat) (fuel n : Nat) (s : GenState)
    (m maze : Maze) (hstep : genStepF oracle n s = .finished m)
    (h : genLoop oracle fuel n s = .ok maze) : maze = m := by
  match fuel with
  | 0 => simp [genLoop] at h
  | f + 1 =>
    simp only [genLoop, hstep, Except.ok.injEq] at h
    exact h.symm

theorem solveLoop_ok_step (m : Maze) (oracle : Nat → Nat) (fuel n : Nat)
    (s s' : SolveState) (path : List Position)
    (hstep : solveStepF m oracle n s = .next s')
    (h : solveLoop m oracle fuel n s = .ok path) :
    ∃ f, fuel = f + 1 ∧ solveLoop m oracle f (n + 1) s' = .ok path := by
  match fuel with
  | 0 => simp [solveLoop] at h
  | f + 1 =>
    simp only [solveLoop, hstep] at h
    exact ⟨f, rfl, h⟩

theorem solveLoop_ok_finish (m : Maze) (oracle : Nat → Nat) (fuel n : Nat)
    (s : SolveState) (p path : List Position)
    (hstep : solveStepF m oracle n s = .finished p)
    (h : solveLoop m oracle fuel n s = .ok path) : path = p := by
  match fuel with
  | 0 => simp [solveLoop] at h
  | f + 1 =>
    simp only [solveLoop, hstep, Except.ok.injEq] at h
    exact h.symm

theorem genStepTT_pop (oracle : Nat → Nat) (n : Nat) (mz : Maze)
    (explored : List Position) (top cur : Position) (rest : List Position)
    (hcond : ¬(explored.length ≠ 1 ∧ cur = ⟨0, 0⟩))
    (hvd : mz.getValidDirections cur explored = []) :
    genStepF oracle n ⟨mz, explored, top :: rest, cur⟩
      = .next ⟨mz, explored, rest, top⟩ := by
  simp only [genStepF, if_neg hcond, hvd]

theorem genStepTT_finish (oracle : Nat → Nat) (n : Nat) (s : GenState)
    (hcond : s.explored.length ≠ 1 ∧ s.cur = ⟨0, 0⟩) :
    genStepF oracle n s = .finished s.maze := by
  simp only [genStepF, if_pos hcond]

theorem validDirections_two_two_start :
    (Maze.new ⟨2, 2⟩ true).getValidDirections ⟨0, 0⟩ [⟨0, 0⟩]
      = [.east, .south] := by
  decide

theorem genStepTT_E0 (oracle : Nat → Nat) (hk : oracle 0 % 2 = 0) :
    ∃ mz : Maze,
      genStepF oracle 0 ⟨Maze.new ⟨2, 2⟩ true, [⟨0, 0⟩], [⟨0, 0⟩], ⟨0, 0⟩⟩
        = .next ⟨mz, [⟨1, 0⟩, ⟨0, 0⟩], [⟨1, 0⟩, ⟨0, 0⟩], ⟨1, 0⟩⟩ ∧
      mz.size = ⟨2, 2⟩ ∧
      mz.tiles ⟨0, 0⟩ = ⟨true, false, true, true⟩ ∧
      mz.tiles ⟨1, 0⟩ = ⟨true, true, true, false⟩ ∧
      mz.tiles ⟨1, 1⟩ = ⟨true, true, true, true⟩ ∧
      mz.tiles ⟨0, 1⟩ = ⟨true, true, true, true⟩ := by
  simp only [genStepF, validDirections_two_two_start, List.length_cons,
    List.length_nil]
  simp only [hk, Maze.setSide, Position.translate, List.getD, Maze.new]
  exact ⟨_, rfl, rfl, rfl, rfl, rfl, rfl⟩

theorem validDirections_TT_E1 (mz : Maze) (hsz : mz.size = ⟨2, 2⟩) :
    mz.getValidDirections ⟨1, 0⟩ [⟨1, 0⟩, ⟨0, 0⟩] = [.south] := by
  simp only [Maze.getValidDirections, hsz]
  decide

theorem genStepTT_E1 (oracle : Nat → Nat) (n : Nat) (mz : Maze)
    (hsz : mz.size = ⟨2, 2⟩) :
    ∃ mz' : Maze,
      genStepF oracle n ⟨mz, [⟨1, 0⟩, ⟨0, 0⟩], [⟨1, 0⟩, ⟨0, 0⟩], ⟨1, 0⟩⟩
        = .next ⟨mz', [⟨1, 1⟩, ⟨1, 0⟩, ⟨0, 0⟩], [⟨1, 1⟩, ⟨1, 0⟩, ⟨0, 0⟩],
            ⟨1, 1⟩⟩ ∧
      mz'.size = ⟨2, 2⟩ ∧
      mz'.tiles ⟨0, 0⟩ = mz.tiles ⟨0, 0⟩ ∧
      mz'.tiles ⟨1, 0⟩ = (mz.tiles ⟨1, 0⟩).setSide .south false ∧
      mz'.tiles ⟨1, 1⟩ = (mz.tiles ⟨1, 1⟩).setSide .north false ∧
      mz'.tiles ⟨0, 1⟩ = mz.tiles ⟨0, 1⟩ := by
  simp only [genStepF, validDirections_TT_E1 mz hsz, List.length_cons,
    List.length_nil, Nat.zero_add, Nat.mod_one]
  simp only [Maze.setSide, hsz, Position.translate, List.getD]
  exact ⟨_, rfl, rfl, rfl, rfl, rfl, rfl⟩

theorem validDirections_TT_E2 (mz : Maze) (hsz : mz.size = ⟨2, 2⟩) :
    mz.getValidDirections ⟨1, 1⟩ [⟨1, 1⟩, ⟨1, 0⟩, ⟨0, 0⟩] = [.west] := by
  simp only [Maze.getValidDirections, hsz]
  decide

theorem genStepTT_E2 (oracle : Nat → Nat) (n : Nat) (mz : Maze)
    (hsz : mz.size = ⟨2, 2⟩) :
    ∃ mz' : Maze,
      genStepF oracle n
          ⟨mz, [⟨1, 1⟩, ⟨1, 0⟩, ⟨0, 0⟩], [⟨1, 1⟩, ⟨1, 0⟩, ⟨0, 0⟩], ⟨1, 1⟩⟩
        = .next ⟨mz', [⟨0, 1⟩, ⟨1, 1⟩, ⟨1, 0⟩, ⟨0, 0⟩],
            [⟨0, 1⟩, ⟨1, 1⟩, ⟨1, 0⟩, ⟨0, 0⟩], ⟨0, 1⟩⟩ ∧
      mz'.size = ⟨2, 2⟩ ∧
      mz'.tiles ⟨0, 0⟩ = mz.tiles ⟨0, 0⟩ ∧
      mz'.tiles ⟨1, 0⟩ = mz.tiles ⟨1, 0⟩ ∧
      mz'.tiles ⟨1, 1⟩ = (mz.tiles ⟨1, 1⟩).setSide .west false ∧
      mz'.tiles ⟨0, 1⟩ = (mz.tiles ⟨0, 1⟩).setSide .east false := by
  simp only [genStepF, validDirections_TT_E2 mz hsz, List.length_cons,
    List.length_nil, Nat.zero_add, Nat.mod_one]
  simp only [Maze.setSide, hsz, Position.translate, List.getD]
  exact ⟨_, rfl, rfl, rfl, rfl, rfl, rfl⟩

theorem validDirections_TT_E3 (mz : Maze) (hsz : mz.size = ⟨2, 2⟩) :
    mz.getValidDirections ⟨0, 1⟩ [⟨0, 1⟩, ⟨1, 1⟩, ⟨1, 0⟩, ⟨0, 0⟩] = [] := by
  simp only [Maze.getValidDirections, hsz]
  decide

theorem validDirections_TT_E5 (mz : Maze) (hsz : mz.size = ⟨2, 2⟩) :
    mz.getValidDirections ⟨1, 1⟩ [⟨0, 1⟩, ⟨1, 1⟩, ⟨1, 0⟩, ⟨0, 0⟩] = [] := by
  simp only [Maze.getValidDirections, hsz]
  decide

theorem validDirections_TT_E6 (mz : Maze) (hsz : mz.size = ⟨2, 2⟩) :
    mz.getValidDirections ⟨1, 0⟩ [⟨0, 1⟩, ⟨1, 1⟩, ⟨1, 0⟩, ⟨0, 0⟩] = [] := by
  simp only [Maze.getValidDirections, hsz]
  decide

theorem genTT_east_run (oracle : Nat → Nat) (hk : oracle 0 % 2 = 0)
    (fuel : Nat) (maze : Maze)
    (h : (Maze.new ⟨2, 2⟩ true).generateMaze oracle fuel = .ok maze) :
    maze.size = ⟨2, 2⟩ ∧
    maze.tiles ⟨0, 0⟩ = ⟨true, false, true, true⟩ ∧
    maze.tiles ⟨1, 0⟩ = ⟨true, true, false, false⟩ ∧
    maze.tiles ⟨1, 1⟩ = ⟨false, true, true, false⟩ ∧
    maze.tiles ⟨0, 1⟩ = ⟨true, false, true, true⟩ := by
  rw [Maze.generateMaze] at h
  obtain ⟨mz1, hs0, hsz1, h1a, h1b, h1c, h1d⟩ := genStepTT_E0 oracle hk
  obtain ⟨f1, rfl, hL1⟩ := genLoop_ok_step oracle fuel 0 _ _ maze hs0 h
  obtain ⟨mz2, hs1, hsz2, h2a, h2b, h2c, h2d⟩ := genStepTT_E1 oracle 1 mz1 hsz1
  obtain ⟨f2, rfl, hL2⟩ := genLoop_ok_step oracle f1 1 _ _ maze hs1 hL1
  obtain ⟨mz3, hs2, hsz3, h3a, h3b, h3c, h3d⟩ := genStepTT_E2 oracle 2 mz2 hsz2
  obtain ⟨f3, rfl, hL3⟩ := genLoop_ok_step oracle f2 2 _ _ maze hs2 hL2
  obtain ⟨f4, rfl, hL4⟩ := genLoop_ok_step oracle f3 3 _ _ maze
    (genStepTT_pop oracle 3 mz3 _ ⟨0, 1⟩ ⟨0, 1⟩ _ (by decide)
      (validDirections_TT_E3 mz3 hsz3)) hL3
  obtain ⟨f5, rfl, hL5⟩ := genLoop_ok_step oracle f4 4 _ _ maze
    (genStepTT_pop oracle 4 mz3 _ ⟨1, 1⟩ ⟨0, 1⟩ _ (by decide)
      (validDirections_TT_E3 mz3 hsz3)) hL4
  obtain ⟨f6, rfl, hL6⟩ := genLoop_ok_step oracle f5 5 _ _ maze
    (genStepTT_pop oracle 5 mz3 _ ⟨1, 0⟩ ⟨1, 1⟩ _ (by decide)
      (validDirections_TT_E5 mz3 hsz3)) hL5
  obtain ⟨f7, rfl, hL7⟩ := genLoop_ok_step oracle f6 6 _ _ maze
    (genStepTT_pop oracle 6 mz3 _ ⟨0, 0⟩ ⟨1, 0⟩ _ (by decide)
      (validDirections_TT_E6 mz3 hsz3)) hL6
  have hstep7 : genStepF oracle 7
      ⟨mz3, [⟨0, 1⟩, ⟨1, 1⟩, ⟨1, 0⟩, ⟨0, 0⟩], [], ⟨0, 0⟩⟩ = .finished mz3 :=
    genStepTT_finish oracle 7 _ ⟨by simp, rfl⟩
  have hfin := genLoop_ok_finish oracle f7 7 _ _ maze hstep7 hL7
  subst hfin
  refine ⟨hsz3, ?_, ?_, ?_, ?_⟩
  · rw [h3a, h2a, h1a]
  · rw [h3b, h2b, h1b]; rfl
  · rw [h3c, h2c, h1c]; rfl
  · rw [h3d, h2d, h1d]; rfl

theorem genStepTT_S0 (oracle : Nat → Nat) (hk : oracle 0 % 2 = 1) :
    ∃ mz : Maze,
      genStepF oracle 0 ⟨Maze.new ⟨2, 2⟩ true, [⟨0, 0⟩], [⟨0, 0⟩], ⟨0, 0⟩⟩
        = .next ⟨mz, [⟨0, 1⟩, ⟨0, 0⟩], [⟨0, 1⟩, ⟨0, 0⟩], ⟨0, 1⟩⟩ ∧
      mz.size = ⟨2, 2⟩ ∧
      mz.tiles ⟨0, 0⟩ = ⟨true, true, false, true⟩ ∧
      mz.tiles ⟨1, 0⟩ = ⟨true, true, true, true⟩ ∧
      mz.tiles ⟨1, 1⟩ = ⟨true, true, true, true⟩ ∧
      mz.tiles ⟨0, 1⟩ = ⟨false, true, true, true⟩ := by
  simp only [genStepF, validDirections_two_two_start, List.length_cons,
    List.length_nil]
  simp only [hk, Maze.setSide, Position.translate, List.getD, Maze.new]
  exact ⟨_, rfl, rfl, rfl, rfl, rfl, rfl⟩

theorem validDirections_TT_S1 (mz : Maze) (hsz : mz.size = ⟨2, 2⟩) :
    mz.getValidDirections ⟨0, 1⟩ [⟨0, 1⟩, ⟨0, 0⟩] = [.east] := by
  simp only [Maze.getValidDirections, hsz]
  decide

theorem genStepTT_S1 (oracle : Nat → Nat) (n : Nat) (mz : Maze)
    (hsz : mz.size = ⟨2, 2⟩) :
    ∃ mz' : Maze,
      genStepF oracle n ⟨mz, [⟨0, 1⟩, ⟨0, 0⟩], [⟨0, 1⟩, ⟨0, 0⟩], ⟨0, 1⟩⟩
        = .next ⟨mz', [⟨1, 1⟩, ⟨0, 1⟩, ⟨0, 0⟩], [⟨1, 1⟩, ⟨0, 1⟩, ⟨0, 0⟩],
            ⟨1, 1⟩⟩ ∧
      mz'.size = ⟨2, 2⟩ ∧
      mz'.tiles ⟨0, 0⟩ = mz.tiles ⟨0, 0⟩ ∧
      mz'.tiles ⟨1, 0⟩ = mz.tiles ⟨1, 0⟩ ∧
      mz'.tiles ⟨1, 1⟩ = (mz.tiles ⟨1, 1⟩).setSide .west false ∧
      mz'.tiles ⟨0, 1⟩ = (mz.tiles ⟨0, 1⟩).setSide .east false := by
  simp only [genStepF, validDirections_TT_S1 mz hsz, List.length_cons,
    List.length_nil, Nat.zero_add, Nat.mod_one]
  simp only [Maze.setSide, hsz, Position.translate, List.getD]
  exact ⟨_, rfl, rfl, rfl, rfl, rfl, rfl⟩

theorem validDirections_TT_S2 (mz : Maze) (hsz : mz.size = ⟨2, 2⟩) :
    mz.getValidDirections ⟨1, 1⟩ [⟨1, 1⟩, ⟨0, 1⟩, ⟨0, 0⟩] = [.north] := by
  simp only [Maze.getValidDirections, hsz]
  decide

theorem genStepTT_S2 (oracle : Nat → Nat) (n : Nat) (mz : Maze)
    (hsz : mz.size = ⟨2, 2⟩) :
    ∃ mz' : Maze,
      genStepF oracle n
          ⟨mz, [⟨1, 1⟩, ⟨0, 1⟩, ⟨0, 0⟩], [⟨1, 1⟩, ⟨0, 1⟩, ⟨0, 0⟩], ⟨1, 1⟩⟩
        = .next ⟨mz', [⟨1, 0⟩, ⟨1, 1⟩, ⟨0, 1⟩, ⟨0, 0⟩],
            [⟨1, 0⟩, ⟨1, 1⟩, ⟨0, 1⟩, ⟨0, 0⟩], ⟨1, 0⟩⟩ ∧
      mz'.size = ⟨2, 2⟩ ∧
      mz'.tiles ⟨0, 0⟩ = mz.tiles ⟨0, 0⟩ ∧
      mz'.tiles ⟨1, 0⟩ = (mz.tiles ⟨1, 0⟩).setSide .south false ∧
      mz'.tiles ⟨1, 1⟩ = (mz.tiles ⟨1, 1⟩).setSide .north false ∧
      mz'.tiles ⟨0, 1⟩ = mz.tiles ⟨0, 1⟩ := by
  simp only [genStepF, validDirections_TT_S2 mz hsz, List.length_cons,
    List.length_nil, Nat.zero_add, Nat.mod_one]
  simp only [Maze.setSide, hsz, Position.translate, List.getD]
  exact ⟨_, rfl, rfl, rfl, rfl, rfl, rfl⟩

theorem validDirections_TT_S3 (mz : Maze) (hsz : mz.size = ⟨2, 2⟩) :
    mz.getValidDirections ⟨1, 0⟩ [⟨1, 0⟩, ⟨1, 1⟩, ⟨0, 1⟩, ⟨0, 0⟩] = [] := by
  simp only [Maze.getValidDirections, hsz]
  decide

theorem validDirections_TT_S5 (mz : Maze) (hsz : mz.size = ⟨2, 2⟩) :
    mz.getValidDirections ⟨1, 1⟩ [⟨1, 0⟩, ⟨1, 1⟩, ⟨0, 1⟩, ⟨0, 0⟩] = [] := by
  simp only [Maze.getValidDirections, hsz]
  decide

theorem validDirections_TT_S6 (mz : Maze) (hsz : mz.size = ⟨2, 2⟩) :
    mz.getValidDirections ⟨0, 1⟩ [⟨1, 0⟩, ⟨1, 1⟩, ⟨0, 1⟩, ⟨0, 0⟩] = [] := by
  simp only [Maze.getValidDirections, hsz]
  decide

theorem genTT_south_run (oracle : Nat → Nat) (hk : oracle 0 % 2 = 1)
    (fuel : Nat) (maze : Maze)
    (h : (Maze.new ⟨2, 2⟩ true).generateMaze oracle fuel = .ok maze) :
    maze.size = ⟨2, 2⟩ ∧
    maze.tiles ⟨0, 0⟩ = ⟨true, true, false, true⟩ ∧
    maze.tiles ⟨1, 0⟩ = ⟨true, true, false, true⟩ ∧
    maze.tiles ⟨1, 1⟩ = ⟨false, true, true, false⟩ ∧
    maze.tiles ⟨0, 1⟩ = ⟨false, false, true, true⟩ := by
  rw [Maze.generateMaze] at h
  obtain ⟨mz1, hs0, hsz1, h1a, h1b, h1c, h1d⟩ := genStepTT_S0 oracle hk
  obtain ⟨f1, rfl, hL1⟩ := genLoop_ok_step oracle fuel 0 _ _ maze hs0 h
  obtain ⟨mz2, hs1, hsz2, h2a, h2b, h2c, h2d⟩ := genStepTT_S1 oracle 1 mz1 hsz1
  obtain ⟨f2, rfl, hL2⟩ := genLoop_ok_step oracle f1 1 _ _ maze hs1 hL1
  obtain ⟨mz3, hs2, hsz3, h3a, h3b, h3c, h3d⟩ := genStepTT_S2 oracle 2 mz2 hsz2
  obtain ⟨f3, rfl, hL3⟩ := genLoop_ok_step oracle f2 2 _ _ maze hs2 hL2
  obtain ⟨f4, rfl, hL4⟩ := genLoop_ok_step oracle f3 3 _ _ maze
    (genStepTT_pop oracle 3 mz3 _ ⟨1, 0⟩ ⟨1, 0⟩ _ (by decide)
      (validDirections_TT_S3 mz3 hsz3)) hL3
  obtain ⟨f5, rfl, hL5⟩ := genLoop_ok_step oracle f4 4 _ _ maze
    (genStepTT_pop oracle 4 mz3 _ ⟨1, 1⟩ ⟨1, 0⟩ _ (by decide)
      (validDirections_TT_S3 mz3 hsz3)) hL4
  obtain ⟨f6, rfl, hL6⟩ := genLoop_ok_step oracle f5 5 _ _ maze
    (genStepTT_pop oracle 5 mz3 _ ⟨0, 1⟩ ⟨1, 1⟩ _ (by decide)
      (validDirections_TT_S5 mz3 hsz3)) hL5
  obtain ⟨f7, rfl, hL7⟩ := genLoop_ok_step oracle f6 6 _ _ maze
    (genStepTT_pop oracle 6 mz3 _ ⟨0, 0⟩ ⟨0, 1⟩ _ (by decide)
      (validDirections_TT_S6 mz3 hsz3)) hL6
  have hstep7 : genStepF oracle 7
      ⟨mz3, [⟨1, 0⟩, ⟨1, 1⟩, ⟨0, 1⟩, ⟨0, 0⟩], [], ⟨0, 0⟩⟩ = .finished mz3 :=
    genStepTT_finish oracle 7 _ ⟨by simp, rfl⟩
  have hfin := genLoop_ok_finish oracle f7 7 _ _ maze hstep7 hL7
  subst hfin
  refine ⟨hsz3, ?_, ?_, ?_, ?_⟩
  · rw [h3a, h2a, h1a]
  · rw [h3b, h2b, h1b]; rfl
  · rw [h3c, h2c, h1c]; rfl
  · rw [h3d, h2d, h1d]; rfl

theorem solveStepTT_finish (maze : Maze) (oracle : Nat → Nat) (n : Nat)
    (s : SolveState) (hcur : s.cur = maze.size.getMaxPos) :
    solveStepF maze oracle n s = .finished (vecDedup s.path) := by
  simp only [solveStepF, if_pos hcur]

theorem movesTT_E0 (maze : Maze) (hsz : maze.size = ⟨2, 2⟩)
    (h00 : maze.tiles ⟨0, 0⟩ = ⟨true, false, true, true⟩) :
    maze.getValidMoves ⟨0, 0⟩ [⟨0, 0⟩] = some [.east] := by
  simp only [Maze.getValidMoves, Maze.getTile, hsz, h00]
  decide

theorem solveStepTT_E0 (maze : Maze) (hsz : maze.size = ⟨2, 2⟩)
    (h00 : maze.tiles ⟨0, 0⟩ = ⟨true, false, true, true⟩)
    (oracle : Nat → Nat) (n : Nat) :
    solveStepF maze oracle n ⟨[⟨0, 0⟩], [⟨0, 0⟩], ⟨0, 0⟩, false⟩
      = .next ⟨[⟨1, 0⟩, ⟨0, 0⟩], [⟨0, 0⟩, ⟨1, 0⟩], ⟨1, 0⟩, false⟩ := by
  simp only [solveStepF, hsz, movesTT_E0 maze hsz h00, List.length_cons,
    List.length_nil, Nat.zero_add, Nat.mod_one]
  rfl

theorem movesTT_E1 (maze : Maze) (hsz : maze.size = ⟨2, 2⟩)
    (h10 : maze.tiles ⟨1, 0⟩ = ⟨true, true, false, false⟩) :
    maze.getValidMoves ⟨1, 0⟩ [⟨1, 0⟩, ⟨0, 0⟩] = some [.south] := by
  simp only [Maze.getValidMoves, Maze.getTile, hsz, h10]
  decide

theorem solveStepTT_E1 (maze : Maze) (hsz : maze.size = ⟨2, 2⟩)
    (h10 : maze.tiles ⟨1, 0⟩ = ⟨true, true, false, false⟩)
    (oracle : Nat → Nat) (n : Nat) :
    solveStepF maze oracle n ⟨[⟨1, 0⟩, ⟨0, 0⟩], [⟨0, 0⟩, ⟨1, 0⟩], ⟨1, 0⟩,
        false⟩
      = .next ⟨[⟨1, 1⟩, ⟨1, 0⟩, ⟨0, 0⟩], [⟨0, 0⟩, ⟨1, 0⟩, ⟨1, 1⟩], ⟨1, 1⟩,
          false⟩ := by
  simp only [solveStepF, hsz, movesTT_E1 maze hsz h10, List.length_cons,
    List.length_nil, Nat.zero_add, Nat.mod_one]
  rfl

theorem solveTT_east (maze : Maze) (hsz : maze.size = ⟨2, 2⟩)
    (h00 : maze.tiles ⟨0, 0⟩ = ⟨true, false, true, true⟩)
    (h10 : maze.tiles ⟨1, 0⟩ = ⟨true, true, false, false⟩)
    (oracle : Nat → Nat) (fuel : Nat) (path : List Position)
    (h : maze.solveMaze oracle fuel = .ok path) :
    path = [⟨0, 0⟩, ⟨1, 0⟩, ⟨1, 1⟩] := by
  rw [Maze.solveMaze] at h
  obtain ⟨f1, rfl, hL1⟩ := solveLoop_ok_step maze oracle fuel 0 _ _ path
    (solveStepTT_E0 maze hsz h00 oracle 0) h
  obtain ⟨f2, rfl, hL2⟩ := solveLoop_ok_step maze oracle f1 1 _ _ path
    (solveStepTT_E1 maze hsz h10 oracle 1) hL1
  have hstep2 : solveStepF maze oracle 2
      ⟨[⟨1, 1⟩, ⟨1, 0⟩, ⟨0, 0⟩], [⟨0, 0⟩, ⟨1, 0⟩, ⟨1, 1⟩], ⟨1, 1⟩, false⟩
      = .finished [⟨0, 0⟩, ⟨1, 0⟩, ⟨1, 1⟩] :=
    solveStepTT_finish maze oracle 2 _ (by rw [hsz]; rfl)
  exact solveLoop_ok_finish maze oracle f2 2 _ _ path hstep2 hL2

theorem movesTT_S0 (maze : Maze) (hsz : maze.size = ⟨2, 2⟩)
    (h00 : maze.tiles ⟨0, 0⟩ = ⟨true, true, false, true⟩) :
    maze.getValidMoves ⟨0, 0⟩ [⟨0, 0⟩] = some [.south] := by
  simp only [Maze.getValidMoves, Maze.getTile, hsz, h00]
  decide

theorem solveStepTT_S0 (maze : Maze) (hsz : maze.size = ⟨2, 2⟩)
    (h00 : maze.tiles ⟨0, 0⟩ = ⟨true, true, false, true⟩)
    (oracle : Nat → Nat) (n : Nat) :
    solveStepF maze oracle n ⟨[⟨0, 0⟩], [⟨0, 0⟩], ⟨0, 0⟩, false⟩
      = .next ⟨[⟨0, 1⟩, ⟨0, 0⟩], [⟨0, 0⟩, ⟨0, 1⟩], ⟨0, 1⟩, false⟩ := by
  simp only [solveStepF, hsz, movesTT_S0 maze hsz h00, List.length_cons,
    List.length_nil, Nat.zero_add, Nat.mod_one]
  rfl

theorem movesTT_S1 (maze : Maze) (hsz : maze.size = ⟨2, 2⟩)
    (h01 : maze.tiles ⟨0, 1⟩ = ⟨false, false, true, true⟩) :
    maze.getValidMoves ⟨0, 1⟩ [⟨0, 1⟩, ⟨0, 0⟩] = some [.east] := by
  simp only [Maze.getValidMoves, Maze.getTile, hsz, h01]
  decide

theorem solveStepTT_S1 (maze : Maze) (hsz : maze.size = ⟨2, 2⟩)
    (h01 : maze.tiles ⟨0, 1⟩ = ⟨false, false, true, true⟩)
    (oracle : Nat → Nat) (n : Nat) :
    solveStepF maze oracle n ⟨[⟨0, 1⟩, ⟨0, 0⟩], [⟨0, 0⟩, ⟨0, 1⟩], ⟨0, 1⟩,
        false⟩
      = .next ⟨[⟨1, 1⟩, ⟨0, 1⟩, ⟨0, 0⟩], [⟨0, 0⟩, ⟨0, 1⟩, ⟨1, 1⟩], ⟨1, 1⟩,
          false⟩ := by
  simp only [solveStepF, hsz, movesTT_S1 maze hsz h01, List.length_cons,
    List.length_nil, Nat.zero_add, Nat.mod_one]
  rfl

theorem solveTT_south (maze : Maze) (hsz : maze.size = ⟨2, 2⟩)
    (h00 : maze.tiles ⟨0, 0⟩ = ⟨true, true, false, true⟩)
    (h01 : maze.tiles ⟨0, 1⟩ = ⟨false, false, true, true⟩)
    (oracle : Nat → Nat) (fuel : Nat) (path : List Position)
    (h : maze.solveMaze oracle fuel = .ok path) :
    path = [⟨0, 0⟩, ⟨0, 1⟩, ⟨1, 1⟩] := by
  rw [Maze.solveMaze] at h
  obtain ⟨f1, rfl, hL1⟩ := solveLoop_ok_step maze oracle fuel 0 _ _ path
    (solveStepTT_S0 maze hsz h00 oracle 0) h
  obtain ⟨f2, rfl, hL2⟩ := solveLoop_ok_step maze oracle f1 1 _ _ path
    (solveStepTT_S1 maze hsz h01 oracle 1) hL1
  have hstep2 : solveStepF maze oracle 2
      ⟨[⟨1, 1⟩, ⟨0, 1⟩, ⟨0, 0⟩], [⟨0, 0⟩, ⟨0, 1⟩, ⟨1, 1⟩], ⟨1, 1⟩, false⟩
      = .finished [⟨0, 0⟩, ⟨0, 1⟩, ⟨1, 1⟩] :=
    solveStepTT_finish maze oracle 2 _ (by rw [hsz]; rfl)
  exact solveLoop_ok_finish maze oracle f2 2 _ _ path hstep2 hL2

/-- Solver correctness on every maze the generator actually produces at size
2×2 (the smallest size on which generation ever succeeds, see the C1/C7/C8
theorems): for every random sequence and iteration budget on the generator
side and every random sequence and iteration budget on the solver side, the
returned path is a duplicate-free path from `(0,0)` to `get_max_pos()` whose
consecutive positions are at Manhattan distance 1 with the wall between them
open on both sides. -/
theorem generated_two_two_solver_simple_path
    (genOracle : Nat → Nat) (genFuel : Nat) (maze : Maze)
    (hgen : (Maze.new ⟨2, 2⟩ true).generateMaze genOracle genFuel = .ok maze)
    (solOracle : Nat → Nat) (solFuel : Nat) (path : List Position)
    (hsol : maze.solveMaze solOracle solFuel = .ok path) :
    path.Nodup ∧ path.head? = some ⟨0, 0⟩ ∧
      path.getLast? = some maze.size.getMaxPos ∧
      path.Chain' (fun a b =>
        manhattanDist a b = 1 ∧ openBetweenB maze a b = true) := by
  rcases Nat.mod_two_eq_zero_or_one (genOracle 0) with hk | hk
  · obtain ⟨hsz, h00, h10, h11, h01⟩ :=
      genTT_east_run genOracle hk genFuel maze hgen
    have hpath := solveTT_east maze hsz h00 h10 solOracle solFuel path hsol
    subst hpath
    refine ⟨by decide, rfl, by rw [hsz]; rfl, ?_⟩
    have hob1 : openBetweenB maze ⟨0, 0⟩ ⟨1, 0⟩ = true := by
      have hd : deltaDirection ⟨0, 0⟩ ⟨1, 0⟩ = some .east := by decide
      simp only [openBetweenB, hd, Maze.getTile, hsz, h00, h10]
      rfl
    have hob2 : openBetweenB maze ⟨1, 0⟩ ⟨1, 1⟩ = true := by
      have hd : deltaDirection ⟨1, 0⟩ ⟨1, 1⟩ = some .south := by decide
      simp only [openBetweenB, hd, Maze.getTile, hsz, h10, h11]
      rfl
    exact List.chain'_cons.mpr ⟨⟨by decide, hob1⟩,
      List.chain'_cons.mpr ⟨⟨by decide, hob2⟩, List.chain'_singleton _⟩⟩
  · obtain ⟨hsz, h00, h10, h11, h01⟩ :=
      genTT_south_run genOracle hk genFuel maze hgen
    have hpath := solveTT_south maze hsz h00 h01 solOracle solFuel path hsol
    subst hpath
    refine ⟨by decide, rfl, by rw [hsz]; rfl, ?_⟩
    have hob1 : openBetweenB maze ⟨0, 0⟩ ⟨0, 1⟩ = true := by
      have hd : deltaDirection ⟨0, 0⟩ ⟨0, 1⟩ = some .south := by decide
      simp only [openBetweenB, hd, Maze.getTile, hsz, h00, h01]
      rfl
    have hob2 : openBetweenB maze ⟨0, 1⟩ ⟨1, 1⟩ = true := by
      have hd : deltaDirection ⟨0, 1⟩ ⟨1, 1⟩ = some .east := by decide
      simp only [openBetweenB, hd, Maze.getTile, hsz, h01, h11]
      rfl
    exact List.chain'_cons.mpr ⟨⟨by decide, hob1⟩,
      List.chain'_cons.mpr ⟨⟨by decide, hob2⟩, List.chain'_singleton _⟩⟩

end MazeGen
